import Mathlib

/-!
Verification of the function-call routing layer of the voice-assistant
repository: a shallow embedding of `src/voice_assistant/router.py`
(`text_to_math_expr`, `_extract_json_call`, `try_route_llm_function_call`,
`maybe_call_by_rules`) and of the pure tool `calculate` from
`src/voice_assistant/tools.py`.

Modelling conventions, stated once here:
* Python strings are `String`/`List Char`.  `str.strip` is modelled with the
  ASCII whitespace set (space, tab, newline, carriage return, vertical tab,
  form feed); the regex class `\s` is modelled with the same set.  All inputs
  appearing in the claims are ASCII or CJK text for which this is exact.
* `re.sub(r"\b<literal>\b", repl, s)` is modelled by a left-to-right,
  non-overlapping scan with an explicit word-boundary test.  Python's `\w`
  (Unicode word character) is modelled as: ASCII alphanumeric, underscore, or
  a CJK unified ideograph (U+4E00..U+9FFF).  Every character occurring in the
  claims' inputs is classified exactly as Python classifies it.
* `json.loads` is modelled by a recursive-descent JSON parser (strict mode:
  raw control characters in strings are rejected, trailing data is rejected).
  Numbers are parsed into exact rationals.
* The two network tools `get_weather` and `search_arxiv` perform HTTP I/O and
  are therefore taken as parameters (a record of total functions
  `String → ToolResult`, matching the tool contract that they never raise).
  `calculate` is pure and is modelled concretely: sympy's `sympify`/`N` is
  modelled as a parser/evaluator over exact rationals following Python's
  expression grammar for `+ - * / % ** ( )`; the `float` conversion in the
  source is modelled as exact rational arithmetic, and the exception text
  interpolated into error messages is abbreviated to a fixed description.
* Python exceptions that can escape a routed call are modelled with
  `Except String`; code the source wraps in `try/except` is modelled inside
  the corresponding handler.
-/

/-- ASCII whitespace, the model of Python's `str.strip` character set and of
the regex class `\s`. -/
def pyWsChar (c : Char) : Bool :=
  c = ' ' || c = '\t' || c = '\n' || c = '\r' || c = '\x0b' || c = '\x0c'

/-- JSON whitespace as accepted by `json.loads` between tokens. -/
def jsonWsChar (c : Char) : Bool :=
  c = ' ' || c = '\t' || c = '\n' || c = '\r'

/-- Drop trailing characters satisfying `p` (right-hand half of `strip`). -/
def rdropWhile (p : Char → Bool) (l : List Char) : List Char :=
  (l.reverse.dropWhile p).reverse

/-- Model of Python `str.strip()` on a character list. -/
def pyStripL (l : List Char) : List Char :=
  rdropWhile pyWsChar (l.dropWhile pyWsChar)

/-- Model of Python `str.strip()`. -/
def pyStrip (s : String) : String :=
  String.mk (pyStripL s.toList)

/-- Model of Python `str.lower()`; ASCII case mapping (the CJK characters in
the claims' inputs have no case). -/
def pyLowerChar (c : Char) : Char :=
  if 'A' ≤ c && c ≤ 'Z' then Char.ofNat (c.toNat + 32) else c

/-- Word character for the regex `\b` model: ASCII alphanumeric, underscore,
or a CJK unified ideograph, exactly as Python's Unicode `\w` classifies the
characters occurring in this code's patterns and the claims' inputs. -/
def isWordChar (c : Char) : Bool :=
  c.isAlphanum || c = '_' || (0x4E00 ≤ c.toNat && c.toNat ≤ 0x9FFF)

/-- Word-ness of the character on the far side of a boundary position; the
ends of the string count as non-word. -/
def sideWord : Option Char → Bool
  | none => false
  | some c => isWordChar c

/-- Does the rule `(pattern, replacement)` match at the current position?
`prev` is the original character immediately before the position.  This is
the `\b<pattern>\b` test: a word boundary must hold on both sides. -/
def ruleMatches (prev : Option Char) (l : List Char) (pat : List Char) : Bool :=
  match pat with
  | [] => false
  | p :: _ =>
    pat.isPrefixOf l
      && (sideWord prev != isWordChar p)
      && (isWordChar (pat.getLastD 'x') != sideWord (l.drop pat.length).head?)

/-- First rule of `rules` matching at the current position (the regex
alternation tries alternatives in order). -/
def findRule (rules : List (List Char × List Char)) (prev : Option Char)
    (l : List Char) : Option (List Char × List Char) :=
  rules.find? (fun r => ruleMatches prev l r.1)

/-- One fueled step-scan of `re.sub` with word-boundary literal patterns:
left-to-right, non-overlapping, replaced text is not rescanned, and the
boundary context is the original string.  Fuel `≥ length` suffices since
every step consumes at least one character. -/
def subWBAux (rules : List (List Char × List Char)) :
    Nat → Option Char → List Char → List Char
  | 0, _, l => l
  | _ + 1, _, [] => []
  | f + 1, prev, c :: t =>
    match findRule rules prev (c :: t) with
    | some (pat, rep) =>
      rep ++ subWBAux rules f (some (pat.getLastD 'x')) (t.drop (pat.length - 1))
    | none => c :: subWBAux rules f (some c) t

/-- Model of `re.sub(r"\b(p₁|p₂|…)\b", rep, s)` for literal alternatives
(for a single pattern, pass a one-element list). -/
def subWB (rules : List (List Char × List Char)) (l : List Char) : List Char :=
  subWBAux rules l.length none l

/-- Model of `str.replace(pat, rep)`: global, non-overlapping,
left-to-right (`pat` must be nonempty, as it is at the call sites). -/
def replaceAllAux (pat rep : List Char) : Nat → List Char → List Char
  | 0, l => l
  | _ + 1, [] => []
  | f + 1, c :: t =>
    if pat.isPrefixOf (c :: t) then
      rep ++ replaceAllAux pat rep f (t.drop (pat.length - 1))
    else c :: replaceAllAux pat rep f t

/-- Model of `str.replace`. -/
def replaceAll (pat rep l : List Char) : List Char :=
  replaceAllAux pat rep l.length l

/-- Collapse every run of two or more copies of `c` occurring after a first
copy, keeping the first: the model of `re.sub(r"c{2,}", "c", s)`. -/
def dedupeRunsAux (c : Char) (prev : Char) : List Char → List Char
  | [] => []
  | a :: t =>
    if a = c ∧ prev = c then dedupeRunsAux c a t
    else a :: dedupeRunsAux c a t

/-- Model of `re.sub(r"c{2,}", "c", s)` for a single character `c`. -/
def collapseRun (c : Char) : List Char → List Char
  | [] => []
  | a :: t => a :: dedupeRunsAux c a t

/-- Index of the first occurrence of `pat` in the list, the model of
Python `str.find` (for nonempty `pat`). -/
def firstIdxOfAux (pat : List Char) (i : Nat) : List Char → Option Nat
  | [] => if pat.isEmpty then some i else none
  | c :: t => if pat.isPrefixOf (c :: t) then some i else firstIdxOfAux pat (i + 1) t

/-- Model of Python `str.find` returning `none` for `-1`. -/
def firstIdxOf (pat l : List Char) : Option Nat :=
  firstIdxOfAux pat 0 l

/-- Model of the Python substring test `pat in s`. -/
def containsSub (pat l : List Char) : Bool :=
  (firstIdxOf pat l).isSome

/-- The ordered multi-word phrase substitutions of `text_to_math_expr`
(router.py lines 12-31), each applied as its own `re.sub` pass. -/
def mathReplacements : List (List Char × List Char) :=
  [(("open parenthesis").toList, ['(']),
   (("close parenthesis").toList, [')']),
   (("open bracket").toList, ['(']),
   (("close bracket").toList, [')']),
   (("to the power of").toList, ['*', '*']),
   (("raised to the power of").toList, ['*', '*']),
   (("multiplied by").toList, ['*']),
   (("times").toList, ['*']),
   (("divide by").toList, ['/']),
   (("divided by").toList, ['/']),
   (("all over").toList, ['/']),
   (("over").toList, ['/']),
   (("加上").toList, ['+']), (("加").toList, ['+']),
   (("减去").toList, ['-']), (("减").toList, ['-']),
   (("乘以").toList, ['*']), (("乘").toList, ['*']),
   (("除以").toList, ['/']), (("除").toList, ['/'])]

/-- The single-word substitutions of `text_to_math_expr` (lines 34-41). -/
def mathSingleWords : List (List Char × List Char) :=
  [(("plus").toList, ['+']),
   (("minus").toList, ['-']),
   (("mod").toList, ['%']),
   (("modulo").toList, ['%']),
   (("squared").toList, ['*', '*', '2']),
   (("cubed").toList, ['*', '*', '3'])]

/-- The noise phrases stripped by `text_to_math_expr` (lines 43-46), each
replaced by a single space. -/
def mathNoise : List (List Char) :=
  [("what is").toList, ("what's").toList, ("whats").toList,
   ("result").toList, ("equals").toList, ("calculate").toList,
   ("compute").toList,
   ("请问").toList, ("等于多少").toList, ("结果是多少").toList,
   ("计算一下").toList, ("帮我算").toList]

/-- Characters kept by the filter `re.sub(r"[^0-9\.\+\-\*\/\%\(\)\s]", " ", s)`
(everything else becomes a space). -/
def allowedMathChar (c : Char) : Bool :=
  c.isDigit || c = '.' || c = '+' || c = '-' || c = '*' || c = '/' ||
    c = '%' || c = '(' || c = ')' || pyWsChar c

/-- Model of `text_to_math_expr` (router.py lines 8-67): lowercase, phrase
substitutions, single-word substitutions, noise stripping, character filter,
whitespace removal, duplicate-operator collapse, and the `"**+" → "**"`
repair. -/
def text_to_math_expr (q : String) : String :=
  let s0 := q.toList.map pyLowerChar
  let s1 := mathReplacements.foldl (fun s kv => subWB [kv] s) s0
  let s2 := mathSingleWords.foldl (fun s kv => subWB [kv] s) s1
  let s3 := mathNoise.foldl (fun s k => subWB [(k, [' '])] s) s2
  let s4 := s3.map (fun c => if allowedMathChar c then c else ' ')
  let s5 := s4.filter (fun c => !pyWsChar c)
  let s6 := collapseRun '/' (collapseRun '-' (collapseRun '+' s5))
  let s7 := replaceAll ['*', '*', '+'] ['*', '*'] s6
  String.mk s7

/-! ## Exact rationals

Mathlib's `ℚ` operations are marked irreducible in this toolchain and so
cannot be evaluated by the kernel; the numeric values of the embedding
(JSON numbers and the sympy model) use this explicitly reducible exact
rational type instead.  A value is kept normalized (positive denominator,
coprime with the numerator) by its constructors. -/

/-- An exact rational number in lowest terms with positive denominator,
kept normalized by the smart constructors below. -/
structure PyRat where
  n : Int
  d : Nat
deriving DecidableEq

/-- Normalize `n / d` for `d ≠ 0` (callers maintain this; the degenerate
case collapses to zero). -/
def qNorm (n : Int) (d : Nat) : PyRat :=
  let g := Nat.gcd n.natAbs d
  if g = 0 then PyRat.mk 0 1 else PyRat.mk (n / (g : Int)) (d / g)

/-- Build `n / d` from integers, moving the sign to the numerator. -/
def mkQ (n d : Int) : PyRat :=
  if d = 0 then PyRat.mk 0 1
  else if d < 0 then qNorm (-n) (-d).toNat
  else qNorm n d.toNat

/-- Embed an integer. -/
def qOfInt (n : Int) : PyRat :=
  PyRat.mk n 1

def qAdd (a b : PyRat) : PyRat :=
  qNorm (a.n * (b.d : Int) + b.n * (a.d : Int)) (a.d * b.d)

def qSub (a b : PyRat) : PyRat :=
  qNorm (a.n * (b.d : Int) - b.n * (a.d : Int)) (a.d * b.d)

def qMul (a b : PyRat) : PyRat :=
  qNorm (a.n * b.n) (a.d * b.d)

def qNeg (a : PyRat) : PyRat :=
  PyRat.mk (-a.n) a.d

/-- Division (the degenerate divisor-zero case collapses to zero; every
call site guards it). -/
def qDiv (a b : PyRat) : PyRat :=
  mkQ (a.n * (b.d : Int)) (b.n * (a.d : Int))

def qIsZero (a : PyRat) : Bool :=
  a.n = 0

def qLt (a b : PyRat) : Bool :=
  a.n * (b.d : Int) < b.n * (a.d : Int)

/-- Floor of a rational (denominator is positive), via `Int` floor
division. -/
def qFloor (a : PyRat) : Int :=
  Int.fdiv a.n (a.d : Int)

/-! ## JSON values and the `json.loads` model -/

/-- A parsed JSON value.  Object members are kept in source order; lookups
take the last binding of a key, matching Python's dict construction in which
later duplicate keys overwrite earlier ones. -/
inductive Json where
  | null : Json
  | bool (b : Bool) : Json
  | num (q : PyRat) : Json
  | str (s : String) : Json
  | arr (l : List Json) : Json
  | obj (l : List (String × Json)) : Json

/-- Skip JSON inter-token whitespace. -/
def skipWsL (l : List Char) : List Char :=
  l.dropWhile jsonWsChar

/-- Value of a hexadecimal digit. -/
def hexVal (c : Char) : Option Nat :=
  if '0' ≤ c ∧ c ≤ '9' then some (c.toNat - 48)
  else if 'a' ≤ c ∧ c ≤ 'f' then some (c.toNat - 87)
  else if 'A' ≤ c ∧ c ≤ 'F' then some (c.toNat - 55)
  else none

/-- JSON string body parser (strict mode): the opening quote has been
consumed; returns the decoded content and the input after the closing quote.
Raw control characters are rejected, escape sequences are decoded; a `\u`
escape naming an invalid code point (a lone surrogate) is modelled as a
failure. -/
def pStrAux : List Char → Option (List Char × List Char)
  | [] => none
  | c :: t =>
    if c = '"' then some ([], t)
    else if c = '\\' then
      match t with
      | [] => none
      | e :: t2 =>
        if e = '"' ∨ e = '\\' ∨ e = '/' then
          (pStrAux t2).map (fun p => (e :: p.1, p.2))
        else if e = 'b' then (pStrAux t2).map (fun p => ('\x08' :: p.1, p.2))
        else if e = 'f' then (pStrAux t2).map (fun p => ('\x0c' :: p.1, p.2))
        else if e = 'n' then (pStrAux t2).map (fun p => ('\n' :: p.1, p.2))
        else if e = 'r' then (pStrAux t2).map (fun p => ('\r' :: p.1, p.2))
        else if e = 't' then (pStrAux t2).map (fun p => ('\t' :: p.1, p.2))
        else if e = 'u' then
          match t2 with
          | h1 :: h2 :: h3 :: h4 :: t3 =>
            match hexVal h1, hexVal h2, hexVal h3, hexVal h4 with
            | some a, some b, some c3, some d =>
              let n := ((a * 16 + b) * 16 + c3) * 16 + d
              if h : n.isValidChar then
                (pStrAux t3).map (fun p => (Char.ofNatAux n h :: p.1, p.2))
              else none
            | _, _, _, _ => none
          | _ => none
        else none
    else if c.toNat < 32 then none
    else (pStrAux t).map (fun p => (c :: p.1, p.2))

/-- Numeric value of a digit list. -/
def digitsVal (ds : List Char) : Nat :=
  ds.foldl (fun a c => a * 10 + (c.toNat - 48)) 0

/-- Optional fraction part of a JSON number. -/
def pFrac : List Char → Option (List Char × List Char)
  | '.' :: t =>
    let ds := t.takeWhile Char.isDigit
    if ds.isEmpty then none else some (ds, t.dropWhile Char.isDigit)
  | l => some ([], l)

/-- Digits (with optional sign) of a JSON exponent. -/
def pExpTail (t : List Char) : Option (Int × List Char) :=
  let sgn : Int := match t with | '-' :: _ => -1 | _ => 1
  let t1 := match t with | '+' :: r => r | '-' :: r => r | _ => t
  let ds := t1.takeWhile Char.isDigit
  if ds.isEmpty then none
  else some (sgn * (digitsVal ds : Int), t1.dropWhile Char.isDigit)

/-- Optional exponent part of a JSON number. -/
def pExpPart : List Char → Option (Int × List Char)
  | 'e' :: t => pExpTail t
  | 'E' :: t => pExpTail t
  | l => some (0, l)

/-- Fraction and exponent following the integer part `ip`.  The value is
assembled with `mkRat` over integer arithmetic so that it is exact. -/
def pNumRest (ip : Nat) (l : List Char) : Option (PyRat × List Char) :=
  match pFrac l with
  | none => none
  | some (fd, r1) =>
    match pExpPart r1 with
    | none => none
    | some (e, r2) =>
      let mant : Nat := ip * 10 ^ fd.length + digitsVal fd
      let q : PyRat :=
        if 0 ≤ e then mkQ (mant * 10 ^ e.toNat) (10 ^ fd.length)
        else mkQ mant (10 ^ fd.length * 10 ^ (-e).toNat)
      some (q, r2)

/-- Unsigned JSON number (leading zeros rejected per the JSON grammar). -/
def pNumPos : List Char → Option (PyRat × List Char)
  | [] => none
  | '0' :: t => pNumRest 0 t
  | c :: t =>
    if c.isDigit then
      pNumRest (digitsVal ((c :: t).takeWhile Char.isDigit))
        ((c :: t).dropWhile Char.isDigit)
    else none

/-- JSON number, with optional leading minus. -/
def pNum : List Char → Option (PyRat × List Char)
  | '-' :: t => (pNumPos t).map (fun p => (qNeg p.1, p.2))
  | l => pNumPos l

/-- Parser mode: a whole value, the members of an object (`first` is true
until the first member has been read; `acc` holds members in reverse), or
the elements of an array. -/
inductive PM where
  | val : PM
  | mem (first : Bool) (acc : List (String × Json)) : PM
  | elems (acc : List Json) : PM

/-- The recursive-descent core of the `json.loads` model.  Fuel decreases on
every recursive call; `2 * length + 4` always suffices since at least one
character is consumed per two call edges. -/
def pAux : Nat → PM → List Char → Option (Json × List Char)
  | 0, _, _ => none
  | f + 1, PM.val, l =>
    match skipWsL l with
    | [] => none
    | c :: t =>
      if c = '{' then pAux f (PM.mem true []) t
      else if c = '[' then
        match skipWsL t with
        | ']' :: r => some (Json.arr [], r)
        | _ => pAux f (PM.elems []) t
      else if c = '"' then (pStrAux t).map (fun p => (Json.str (String.mk p.1), p.2))
      else if c = 't' then
        match t with
        | 'r' :: 'u' :: 'e' :: r => some (Json.bool true, r)
        | _ => none
      else if c = 'f' then
        match t with
        | 'a' :: 'l' :: 's' :: 'e' :: r => some (Json.bool false, r)
        | _ => none
      else if c = 'n' then
        match t with
        | 'u' :: 'l' :: 'l' :: r => some (Json.null, r)
        | _ => none
      else if c.isDigit || c = '-' then
        (pNum (c :: t)).map (fun p => (Json.num p.1, p.2))
      else none
  | f + 1, PM.mem first acc, l =>
    match skipWsL l with
    | [] => none
    | c :: t =>
      if c = '}' then (if first then some (Json.obj acc.reverse, t) else none)
      else if c = '"' then
        match pStrAux t with
        | none => none
        | some (k, r1) =>
          match skipWsL r1 with
          | [] => none
          | c2 :: r2 =>
            if c2 = ':' then
              match pAux f PM.val r2 with
              | none => none
              | some (v, r3) =>
                match skipWsL r3 with
                | [] => none
                | c3 :: r4 =>
                  if c3 = ',' then pAux f (PM.mem false ((String.mk k, v) :: acc)) r4
                  else if c3 = '}' then
                    some (Json.obj ((String.mk k, v) :: acc).reverse, r4)
                  else none
            else none
      else none
  | f + 1, PM.elems acc, l =>
    match pAux f PM.val l with
    | none => none
    | some (v, r1) =>
      match skipWsL r1 with
      | [] => none
      | c :: r2 =>
        if c = ',' then pAux f (PM.elems (v :: acc)) r2
        else if c = ']' then some (Json.arr (v :: acc).reverse, r2)
        else none

/-- Model of `json.loads` on a character list: parse one value, then require
only whitespace to remain (`Extra data` otherwise). -/
def jsonLoadsL (l : List Char) : Option Json :=
  match pAux (2 * l.length + 4) PM.val l with
  | some (v, rest) => if (skipWsL rest).isEmpty then some v else none
  | none => none

/-- Model of `json.loads`. -/
def jsonLoads (s : String) : Option Json :=
  jsonLoadsL s.toList

/-! ## The call extractor: model of `_extract_json_call` (router.py 71-109) -/

/-- Does the parsed value qualify for return:
`isinstance(obj, dict) and "function" in obj`? -/
def isFnObj : Json → Bool
  | Json.obj l => l.any (fun kv => kv.1 = ("function"))
  | _ => false

/-- After a closing brace candidate of the lazy group `(\{.*?\})`, the regex
requires `\s*` then a closing triple backtick. -/
def fenceCloseAfter (t : List Char) : Bool :=
  (['`', '`', '`']).isPrefixOf (t.dropWhile pyWsChar)

/-- The input right after the whole fence match (past `\s*` and the closing
triple backtick). -/
def fenceCloseDrop (t : List Char) : List Char :=
  (t.dropWhile pyWsChar).drop 3

/-- The lazy middle of `(\{.*?\})\s*```": the shortest prefix whose next
character is `}` followed by `\s*` and a closing fence.  Returns the middle
and the input after the whole match.  With `re.S` the dot matches every
character, so nothing else is excluded. -/
def findLazyClose : List Char → Option (List Char × List Char)
  | [] => none
  | c :: t =>
    if c = '}' ∧ fenceCloseAfter t then some ([], fenceCloseDrop t)
    else (findLazyClose t).map (fun p => (c :: p.1, p.2))

/-- Attempt the fence regex ```` ```(?:json)?\s*(\{.*?\})\s*``` ```` at the
current position (with `re.I` on the `json` tag).  As the alternation
points of this regex are all forced (the optional `json` and the greedy
`\s*` admit exactly one viable length before a required non-matching
character), the match is deterministic.  Returns the captured group and the
input after the match. -/
def fenceMatchAt (l : List Char) : Option (List Char × List Char) :=
  if (['`', '`', '`']).isPrefixOf l then
    let l1 := l.drop 3
    let l2 :=
      if (("json").toList).isPrefixOf (l1.map pyLowerChar) then l1.drop 4 else l1
    match l2.dropWhile pyWsChar with
    | '{' :: t =>
      (findLazyClose t).map (fun p => ('{' :: p.1 ++ ['}'], p.2))
    | _ => none
  else none

/-- Model of `re.finditer` for the fence regex: scan left to right, emit
each non-overlapping match's captured group, resume after the match.  Fuel
`≥ length` suffices since every step consumes at least one character. -/
def fenceScan : Nat → List Char → List (List Char)
  | 0, _ => []
  | _ + 1, [] => []
  | f + 1, c :: t =>
    match fenceMatchAt (c :: t) with
    | some (g, rest) => g :: fenceScan f rest
    | none => fenceScan f t

/-- Strategy 2 body: for each fenced block in order, strip it, parse it, and
return the first parse that qualifies; parse failures and non-qualifying
parses move on to the next block. -/
def tryBlocks : List (List Char) → Option Json
  | [] => none
  | b :: bs =>
    match jsonLoadsL (pyStripL b) with
    | some obj => if isFnObj obj then some obj else tryBlocks bs
    | none => tryBlocks bs

/-- Strategy 3's scan loop from the found index: walk the characters
keeping a depth counter (`+1` at `{`, `-1` at `}`); each time the depth
reaches zero at a `}`, the chunk from the start through this character is
parsed: a qualifying parse returns, a failing parse breaks out of the loop
(no later occurrence is tried), and a qualifying check failure continues
the walk.  `orig` is the suffix starting at the found index and `taken`
counts characters already walked. -/
def scanChunks (orig : List Char) : Nat → Int → List Char → Option Json
  | _, _, [] => none
  | taken, d, c :: t =>
    if c = '}' ∧ d - 1 = 0 then
      match jsonLoadsL (orig.take (taken + 1)) with
      | some obj => if isFnObj obj then some obj else scanChunks orig (taken + 1) (d - 1) t
      | none => none
    else
      scanChunks orig (taken + 1)
        (if c = '{' then d + 1 else if c = '}' then d - 1 else d) t

/-- The literal opener `{"function"` searched by strategy 3. -/
def fnPat : List Char :=
  '{' :: ("\"function\"").toList

/-- Strategy 3: find the first occurrence of the literal `{"function"` and
run the depth-counting scan from it. -/
def strat3 (s : List Char) : Option Json :=
  match firstIdxOf fnPat s with
  | none => none
  | some idx => scanChunks (s.drop idx) 0 0 (s.drop idx)

/-- Strategies 2 and 3 of `_extract_json_call`: scan fenced code blocks,
then brace-match from the first `{"function"`. -/
def extractFallback (s : List Char) : Option Json :=
  match tryBlocks (fenceScan (s.length + 1) s) with
  | some obj => some obj
  | none => strat3 s

/-- Model of `_extract_json_call` (router.py 71-109): strip the input,
then (1) try parsing the whole string, returning it only if it is an
object containing `"function"`; (2) scan fenced code blocks; (3)
brace-match from the first `{"function"`.  Any parse failure falls
through; the function never raises. -/
def extract_json_call (text : String) : Option Json :=
  match jsonLoadsL (pyStripL text.toList) with
  | some obj => if isFnObj obj then some obj else extractFallback (pyStripL text.toList)
  | none => extractFallback (pyStripL text.toList)


/-! ## Tools: `ToolResult` and the pure tool `calculate` (tools.py 10-33) -/

/-- Model of the `ToolResult` dataclass. -/
structure ToolResult where
  ok : Bool
  content : String
deriving DecidableEq

/-- Arithmetic tokens of the expression grammar accepted by
`sympify`/`N` for the character set reaching `calculate`. -/
inductive MTok where
  | num (q : PyRat) : MTok
  | add : MTok
  | sub : MTok
  | mul : MTok
  | divT : MTok
  | modT : MTok
  | pow : MTok
  | lp : MTok
  | rp : MTok

/-- Tokenizer for Python arithmetic expressions over
`0-9 . + - * / % ( )` and whitespace; `**` is one token.  An integer
literal with a leading zero is rejected as in Python.  Fuel `≥ length`
suffices. -/
def mathLex : Nat → List Char → Option (List MTok)
  | 0, _ => none
  | _ + 1, [] => some []
  | f + 1, c :: t =>
    if pyWsChar c then mathLex f t
    else if c = '+' then (mathLex f t).map (MTok.add :: ·)
    else if c = '-' then (mathLex f t).map (MTok.sub :: ·)
    else if c = '%' then (mathLex f t).map (MTok.modT :: ·)
    else if c = '(' then (mathLex f t).map (MTok.lp :: ·)
    else if c = ')' then (mathLex f t).map (MTok.rp :: ·)
    else if c = '*' then
      match t with
      | '*' :: t2 => (mathLex f t2).map (MTok.pow :: ·)
      | _ => (mathLex f t).map (MTok.mul :: ·)
    else if c = '/' then (mathLex f t).map (MTok.divT :: ·)
    else if c.isDigit ∨ c = '.' then
      let ds := (c :: t).takeWhile Char.isDigit
      let r1 := (c :: t).dropWhile Char.isDigit
      match r1 with
      | '.' :: t2 =>
        let fs := t2.takeWhile Char.isDigit
        let r2 := t2.dropWhile Char.isDigit
        if ds.isEmpty ∧ fs.isEmpty then none
        else
          (mathLex f r2).map
            (MTok.num (mkQ (digitsVal ds * 10 ^ fs.length + digitsVal fs)
              (10 ^ fs.length)) :: ·)
      | _ =>
        if ds.isEmpty then none
        else if 1 < ds.length ∧ ds.head? = some '0' then none
        else (mathLex f r1).map (MTok.num (qOfInt (digitsVal ds)) :: ·)
    else none

/-- `q ^ n` for a natural exponent. -/
def qPowNat (q : PyRat) : Nat → PyRat
  | 0 => qOfInt 1
  | n + 1 => qMul q (qPowNat q n)

/-- `q ^ z` for an integer exponent (negative exponents of zero are
guarded at the call site). -/
def qPowInt (q : PyRat) : Int → PyRat
  | Int.ofNat n => qPowNat q n
  | Int.negSucc n => qDiv (qOfInt 1) (qPowNat q (n + 1))

/-- Grammar mode for the Python-precedence expression parser:
`e` an additive expression, `t` a multiplicative term, `u` a unary
expression, `p` a power, `a` an atom; the `Rest` modes carry the left
operand of a left-associative chain. -/
inductive AM where
  | e : AM
  | eRest (acc : PyRat) : AM
  | t : AM
  | tRest (acc : PyRat) : AM
  | u : AM
  | p : AM
  | a : AM

/-- Parser/evaluator over exact rationals following Python's grammar
(`**` binds tightest and right-associatively with a unary right operand,
then unary sign, then `* / %` left-associatively, then `+ -`).  Division
or modulus by zero and a non-integer exponent evaluate to failure, as the
corresponding Python computation raises (and `calculate` catches).
Modulus is Python's floored `Mod`.  Fuel decreases on every call. -/
def pArith : Nat → AM → List MTok → Option (PyRat × List MTok)
  | 0, _, _ => none
  | f + 1, AM.e, ts =>
    match pArith f AM.t ts with
    | some (v, ts1) => pArith f (AM.eRest v) ts1
    | none => none
  | f + 1, AM.eRest acc, ts =>
    match ts with
    | MTok.add :: ts1 =>
      match pArith f AM.t ts1 with
      | some (v, ts2) => pArith f (AM.eRest (qAdd acc v)) ts2
      | none => none
    | MTok.sub :: ts1 =>
      match pArith f AM.t ts1 with
      | some (v, ts2) => pArith f (AM.eRest (qSub acc v)) ts2
      | none => none
    | _ => some (acc, ts)
  | f + 1, AM.t, ts =>
    match pArith f AM.u ts with
    | some (v, ts1) => pArith f (AM.tRest v) ts1
    | none => none
  | f + 1, AM.tRest acc, ts =>
    match ts with
    | MTok.mul :: ts1 =>
      match pArith f AM.u ts1 with
      | some (v, ts2) => pArith f (AM.tRest (qMul acc v)) ts2
      | none => none
    | MTok.divT :: ts1 =>
      match pArith f AM.u ts1 with
      | some (v, ts2) =>
        if qIsZero v then none else pArith f (AM.tRest (qDiv acc v)) ts2
      | none => none
    | MTok.modT :: ts1 =>
      match pArith f AM.u ts1 with
      | some (v, ts2) =>
        if qIsZero v then none
        else pArith f (AM.tRest (qSub acc (qMul v (qOfInt (qFloor (qDiv acc v)))))) ts2
      | none => none
    | _ => some (acc, ts)
  | f + 1, AM.u, ts =>
    match ts with
    | MTok.sub :: ts1 => (pArith f AM.u ts1).map (fun p => (qNeg p.1, p.2))
    | MTok.add :: ts1 => pArith f AM.u ts1
    | _ => pArith f AM.p ts
  | f + 1, AM.p, ts =>
    match pArith f AM.a ts with
    | some (v, ts1) =>
      match ts1 with
      | MTok.pow :: ts2 =>
        match pArith f AM.u ts2 with
        | some (e, ts3) =>
          if e.d = 1 then
            if qIsZero v ∧ e.n < 0 then none else some (qPowInt v e.n, ts3)
          else none
        | none => none
      | _ => some (v, ts1)
    | none => none
  | f + 1, AM.a, ts =>
    match ts with
    | MTok.num q :: ts1 => some (q, ts1)
    | MTok.lp :: ts1 =>
      match pArith f AM.e ts1 with
      | some (v, MTok.rp :: ts2) => some (v, ts2)
      | _ => none
    | _ => none

/-- Model of `N(sympify(expression))` followed by `float(...)`: tokenize,
parse and evaluate the whole string as one expression over exact
rationals (`none` models every raising path, all caught by `calculate`). -/
def calcEval (s : String) : Option PyRat :=
  match mathLex (s.toList.length + 1) s.toList with
  | none => none
  | some ts =>
    match pArith (6 * ts.length + 8) AM.e ts with
    | some (v, []) => some v
    | _ => none

/-- Absolute value. -/
def qAbs (q : PyRat) : PyRat :=
  if qLt q (qOfInt 0) then qNeg q else q

/-- Model of Python's built-in `round` to the nearest integer (banker's
rounding: ties go to the even integer). -/
def pyRoundQ (q : PyRat) : Int :=
  let fl := qFloor q
  let fr := qSub q (qOfInt fl)
  if qLt fr (mkQ 1 2) then fl
  else if qLt (mkQ 1 2) fr then fl + 1
  else if fl % 2 = 0 then fl else fl + 1

/-- The source's near-integer test `abs(f - round(f)) < 1e-12`. -/
def almostInt (q : PyRat) : Bool :=
  qLt (qAbs (qSub q (qOfInt (pyRoundQ q)))) (mkQ 1 (10 ^ 12))

/-- The quantization to two decimal places with `ROUND_HALF_UP` (ties away
from zero), returned in hundredths. -/
def halfUpCents (q : PyRat) : Int :=
  let x := qMul q (qOfInt 100)
  if qLt x (qOfInt 0) then -qFloor (qAdd (qNeg x) (mkQ 1 2))
  else qFloor (qAdd x (mkQ 1 2))

/-- Decimal digits of a natural number, most significant first (fuel
`≥ n + 1` suffices). -/
def natStrAux : Nat → Nat → List Char
  | 0, _ => []
  | f + 1, n =>
    if n < 10 then [Char.ofNat (48 + n)]
    else natStrAux f (n / 10) ++ [Char.ofNat (48 + n % 10)]

/-- Decimal rendering of a natural number, the model of Python `str`. -/
def natStr (n : Nat) : String :=
  String.mk (natStrAux (n + 1) n)

/-- Decimal rendering of an integer, the model of Python `str`. -/
def intStr (n : Int) : String :=
  if n < 0 then ("-") ++ natStr n.natAbs else natStr n.natAbs

/-- Two-digit rendering of `n` in `0..99`. -/
def pad2 (n : Nat) : String :=
  if n < 10 then ("0") ++ natStr n else natStr n

/-- Rendering of a hundredths value as `d.dd`, the model of
`f"{d:.2f}"` for a two-place `Decimal`. -/
def centsRender (n : Int) : String :=
  (if n < 0 then ("-") else ("")) ++ natStr (n.natAbs / 100) ++ (".") ++
    pad2 (n.natAbs % 100)

/-- The output formatting of `calculate` (tools.py 22-31): near-integers
render as the bare integer; otherwise round half-up to two decimals.  The
source builds the candidate string (which is `"-0.00"` exactly when a
negative value rounds to zero cents, as `Decimal` keeps the sign) and then
normalizes the literal `"-0.00"` to `"0.00"`; the two steps are written
here as merged branches with the same results. -/
def formatVal (q : PyRat) : String :=
  if almostInt q then intStr (pyRoundQ q)
  else if qLt q (qOfInt 0) ∧ halfUpCents q = 0 then ("0.00")
  else if centsRender (halfUpCents q) = ("-0.00") then ("0.00")
  else centsRender (halfUpCents q)

/-- Model of `calculate` (tools.py 10-33): evaluate with the rational
model of sympy and format; every raising path is caught and reported as a
failed `ToolResult` (the Python message interpolates the exception text;
the model uses a fixed description). -/
def calculate (expression : String) : ToolResult :=
  match calcEval expression with
  | some q => ToolResult.mk true (formatVal q)
  | none => ToolResult.mk false ("Math calculation error: invalid expression")

/-! ## The router (router.py 111-193) -/

/-- The two network-backed tools, taken as parameters: they perform HTTP
I/O and, per the tool contract, never raise (every failure is a
`ToolResult` with `ok := false`). -/
structure ExtTools where
  get_weather : String → ToolResult
  search_arxiv : String → ToolResult

/-- The alias table of `try_route_llm_function_call` (router.py 117-122). -/
def ALIASES : List (String × String) :=
  [(("recent_papers"), ("search_arxiv")),
   (("search_papers"), ("search_arxiv")),
   (("find_papers"), ("search_arxiv")),
   (("arxiv_search"), ("search_arxiv"))]

/-- `ALIASES.get(name, name)` for a string key. -/
def aliasLookup (s : String) : String :=
  match ALIASES.find? (fun kv => kv.1 == s) with
  | some kv => kv.2
  | none => s

/-- Python truthiness of a decoded JSON value. -/
def pyTruthy : Json → Bool
  | Json.null => false
  | Json.bool b => b
  | Json.num q => !qIsZero q
  | Json.str s => !(s == (""))
  | Json.arr l => !l.isEmpty
  | Json.obj l => !l.isEmpty

/-- Last binding of key `k` in an object's member list: Python's dict is
built with later duplicate keys overwriting earlier ones. -/
def lastLookup (l : List (String × Json)) (k : String) : Option Json :=
  match l.reverse.find? (fun kv => kv.1 == k) with
  | some kv => some kv.2
  | none => none

/-- `obj.get(k)` on a decoded object: `none` models Python `None`, which
arises both when the key is absent and when its value is JSON `null`. -/
def pyFieldGet (obj : Json) (k : String) : Option Json :=
  match obj with
  | Json.obj l =>
    match lastLookup l k with
    | some Json.null => none
    | v => v
  | _ => none

/-- `ALIASES.get(func, func)` for the raw field value (router.py 125).
This statement sits OUTSIDE the `try` of the dispatcher: a list- or
dict-valued `function` field is an unhashable dict key and raises
`TypeError` to the caller.  The remaining values (`None`, booleans,
numbers, strings) are hashable; only strings can hit the table. -/
def aliasResolveE : Option Json → Except String (Option Json)
  | some (Json.str s) => Except.ok (some (Json.str (aliasLookup s)))
  | some (Json.arr _) => Except.error ("TypeError: unhashable type: 'list'")
  | some (Json.obj _) => Except.error ("TypeError: unhashable type: 'dict'")
  | v => Except.ok v

/-- Python `str()` of the resolved function value, as interpolated into
the unknown-function message.  Claims exercise only the string case; the
numeric rendering is schematic (Python renders floats differently). -/
def pyStr : Option Json → String
  | none => ("None")
  | some (Json.str s) => s
  | some (Json.bool true) => ("True")
  | some (Json.bool false) => ("False")
  | some Json.null => ("None")
  | some (Json.num q) =>
    if q.d = 1 then toString q.n else toString q.n ++ ("/") ++ toString q.d
  | some (Json.arr _) => ("[...]")
  | some (Json.obj _) => ("\x7b...\x7d")

/-- `args.get(key, "")` inside the dispatcher's `try`.  On a non-dict
`args` the attribute access raises (caught by the dispatcher).  A JSON
`null` value reaches the tool as Python `None`; on the three registered
tools this takes the same caught-failure or default path as the empty
string, which is how it is modelled.  Other non-string values are passed
through their string image (no claim exercises them). -/
def argStr (args : Json) (key : String) : Except String String :=
  match args with
  | Json.obj l =>
    match lastLookup l key with
    | none => Except.ok ("")
    | some Json.null => Except.ok ("")
    | some (Json.str s) => Except.ok s
    | some v => Except.ok (pyStr (some v))
  | _ => Except.error ("AttributeError: 'object' has no attribute 'get'")

/-- Reply construction shared by every dispatch branch:
`r.content if r.ok else f"Error from <name>: {r.content}"`. -/
def dispatchReply (name : String) (r : ToolResult) : String :=
  if r.ok then r.content else ("Error from ") ++ name ++ (": ") ++ r.content

/-- The body of the dispatcher's `try` (router.py 128-142): the three
registered tools in source order, then the unknown-function reply. -/
def dispatchTry (ext : ExtTools) (func : Option Json) (args : Json) :
    Except String String :=
  match func with
  | some (Json.str s) =>
    if s = ("get_weather") then
      (argStr args ("location")).map
        (fun loc => dispatchReply ("get_weather") (ext.get_weather loc))
    else if s = ("calculate") then
      (argStr args ("expression")).map
        (fun e => dispatchReply ("calculate") (calculate e))
    else if s = ("search_arxiv") then
      (argStr args ("query")).map
        (fun query => dispatchReply ("search_arxiv") (ext.search_arxiv query))
    else Except.ok (("Error: Unknown function '") ++ s ++ ("'"))
  | v => Except.ok (("Error: Unknown function '") ++ pyStr v ++ ("'"))

/-- Model of `try_route_llm_function_call` (router.py 111-144).  The
result is `Except`: `Except.error` models an exception escaping to the
caller, which is possible because the alias lookup on line 125 sits
outside the `try` beginning on line 128; everything inside the `try` is
converted by the catch-all into the `"Error: Could not process…"` reply. -/
def try_route_llm_function_call (ext : ExtTools) (llm_output : String) :
    Except String (Option String) :=
  match extract_json_call llm_output with
  | none => Except.ok none
  | some obj =>
    if !pyTruthy obj then Except.ok none
    else
      match aliasResolveE (pyFieldGet obj ("function")) with
      | Except.error e => Except.error e
      | Except.ok func =>
        let args :=
          match (match obj with
                 | Json.obj l => lastLookup l ("arguments")
                 | _ => none) with
          | none => Json.obj []
          | some v => if pyTruthy v then v else Json.obj []
        Except.ok (some
          (match dispatchTry ext func args with
           | Except.ok reply => reply
           | Except.error e =>
             ("Error: Could not process function call. Details: ") ++ e))

/-- The weather keywords of the rule fallback (router.py 171-174). -/
def WEATHER_KWS : List (List Char) :=
  [("weather").toList, ("forecast").toList, ("temperature").toList,
   ("下雨").toList, ("天气").toList, ("气温").toList, ("预报").toList]

/-- The arXiv keywords of the rule fallback (router.py 185-188). -/
def ARXIV_KWS : List (List Char) :=
  [("arxiv").toList, ("paper").toList, ("papers").toList,
   ("literature").toList, ("recent research").toList,
   ("latest research").toList,
   ("论文").toList, ("检索").toList, ("文献").toList, ("最近研究").toList]

/-- One character of the operator class of
`re.search(r'(\*\*|[\+\-\*\/\%\^])', expr)` (the `\*\*` alternative is
subsumed by `\*`). -/
def mathOpChar (c : Char) : Bool :=
  c = '+' || c = '-' || c = '*' || c = '/' || c = '%' || c = '^'

/-- `re.search` of the operator pattern: some character matches. -/
def hasMathOp (l : List Char) : Bool :=
  l.any mathOpChar

/-- One character of the city class `[a-zA-Z\s,]`. -/
def cityClassChar (c : Char) : Bool :=
  (('a' ≤ c && c ≤ 'z') || ('A' ≤ c && c ≤ 'Z')) || pyWsChar c || c = ','

/-- After `weather\s+`, try the alternation `(?:in|at|for)` followed by
`\s+` and the greedy group `([a-zA-Z\s,]+)`; each alternative is tried in
order, and the greedy pieces admit exactly one viable extent. -/
def prepGroup (r2 : List Char) : Option (List Char) :=
  (([("in"), ("at"), ("for")]).map String.toList).foldr
    (fun w acc =>
      match
        (if w.isPrefixOf r2 then
          let r3 := r2.drop w.length
          if (r3.takeWhile pyWsChar).isEmpty then none
          else
            let g := (r3.dropWhile pyWsChar).takeWhile cityClassChar
            if g.isEmpty then none else some g
        else none) with
      | some g => some g
      | none => acc) none

/-- Model of `re.search(r"weather\s+(?:in|at|for)\s+([a-zA-Z\s,]+)", ql)`:
try a match at each position from the left; on failure move one position
right.  Fuel `≥ length` suffices. -/
def weatherSearch : Nat → List Char → Option (List Char)
  | 0, _ => none
  | _ + 1, [] => none
  | f + 1, c :: t =>
    if (("weather").toList).isPrefixOf (c :: t) then
      let r1 := (c :: t).drop 7
      if (r1.takeWhile pyWsChar).isEmpty then weatherSearch f t
      else
        match prepGroup (r1.dropWhile pyWsChar) with
        | some g => some g
        | none => weatherSearch f t
    else weatherSearch f t

/-- The time-of-day words stripped from an extracted city (router.py 179),
removed in one alternation pass. -/
def timeWords : List (List Char) :=
  [("today").toList, ("tomorrow").toList, ("now").toList,
   ("tonight").toList, ("morning").toList, ("afternoon").toList,
   ("evening").toList, ("night").toList]

/-- Model of `re.sub(r'\s+', ' ', city)`: collapse whitespace runs to one
space. -/
def squeezeWsAux (prevWs : Bool) : List Char → List Char
  | [] => []
  | c :: t =>
    if pyWsChar c then
      if prevWs then squeezeWsAux true t else ' ' :: squeezeWsAux true t
    else c :: squeezeWsAux false t

/-- City post-processing (router.py 177-180): strip, remove time words,
strip, collapse whitespace, strip. -/
def cityClean (g : List Char) : List Char :=
  let c0 := pyStripL g
  let c1 := subWB (timeWords.map (fun w => (w, []))) c0
  let c2 := pyStripL c1
  pyStripL (squeezeWsAux false c2)

/-- `q = user_text.strip()` of the rule fallback. -/
def ruleQ (user_text : String) : List Char :=
  pyStripL user_text.toList

/-- `ql = q.lower()` of the rule fallback. -/
def ruleQl (user_text : String) : List Char :=
  (ruleQ user_text).map pyLowerChar

/-- `expr = text_to_math_expr(q)` of the rule fallback. -/
def ruleExpr (user_text : String) : String :=
  text_to_math_expr (String.mk (ruleQ user_text))

/-- The extracted-and-cleaned city of the weather rule. -/
def ruleCity (user_text : String) : List Char :=
  cityClean ((weatherSearch ((ruleQl user_text).length + 1) (ruleQl user_text)).getD [])

/-- Model of `maybe_call_by_rules` (router.py 158-193): normalize the
utterance; if the result contains an operator, dispatch `calculate`;
otherwise try the weather keywords (with city extraction), then the arXiv
keywords; otherwise no rule matches. -/
def maybe_call_by_rules (ext : ExtTools) (user_text : String) : Option String :=
  if ruleExpr user_text ≠ ("") ∧ hasMathOp (ruleExpr user_text).toList then
    some (dispatchReply ("calculate") (calculate (ruleExpr user_text)))
  else if WEATHER_KWS.any (fun w => containsSub w (ruleQl user_text)) then
    some (dispatchReply ("get_weather") (ext.get_weather (String.mk (ruleCity user_text))))
  else if ARXIV_KWS.any (fun w => containsSub w (ruleQl user_text)) then
    some (dispatchReply ("search_arxiv") (ext.search_arxiv (String.mk (ruleQ user_text))))
  else none

/-! ## Well-formed call payloads and their canonical serialization

The claims about the extractor and the dispatcher quantify over well-formed
payloads `{"function":"X","arguments":{…}}` with string-keyed string
arguments.  `serializeCall` produces the canonical JSON text of such a
payload and `callJson` its decoded value. -/

/-- A character that round-trips through a JSON string literal verbatim:
not a quote, not a backslash, not a control character. -/
def jplainChar (c : Char) : Bool :=
  decide (c ≠ '"' ∧ c ≠ '\\' ∧ 32 ≤ c.toNat)

/-- A `jplainChar` that additionally cannot disturb the extractor's
brace-matching scan or fence scan: not a brace and not a backtick. -/
def xplainChar (c : Char) : Bool :=
  jplainChar c && decide (c ≠ '{' ∧ c ≠ '}' ∧ c ≠ '`')

/-- All characters of the string satisfy `p`. -/
def strAll (p : Char → Bool) (s : String) : Bool :=
  s.toList.all p

/-- All keys and values satisfy `p`. -/
def argsAll (p : Char → Bool) (args : List (String × String)) : Bool :=
  args.all (fun kv => strAll p kv.1 && strAll p kv.2)

/-- One serialized member `"k":"v"`. -/
def serMember (kv : String × String) : List Char :=
  '"' :: kv.1.toList ++ '"' :: ':' :: '"' :: kv.2.toList ++ ['"']

/-- Comma-separated serialized members. -/
def serMembers : List (String × String) → List Char
  | [] => []
  | [kv] => serMember kv
  | kv :: rest => serMember kv ++ ',' :: serMembers rest

/-- The fixed serialized text between the braces: the `function` member
and the `arguments` key. -/
def serHead (name : String) : List Char :=
  ("\"function\":\"").toList ++ name.toList ++ ("\",\"arguments\":").toList

/-- Characters of the canonical serialization
`{"function":"NAME","arguments":{…}}`. -/
def serCallList (name : String) (args : List (String × String)) : List Char :=
  '{' :: serHead name ++ '{' :: serMembers args ++ ['}', '}']

/-- The canonical JSON text of a well-formed payload. -/
def serializeCall (name : String) (args : List (String × String)) : String :=
  String.mk (serCallList name args)

/-- Members of the decoded `arguments` object. -/
def argsJson (args : List (String × String)) : List (String × Json) :=
  args.map (fun kv => (kv.1, Json.str kv.2))

/-- The decoded value of a well-formed payload. -/
def callJson (name : String) (args : List (String × String)) : Json :=
  Json.obj [(("function"), Json.str name),
    (("arguments"), Json.obj (argsJson args))]

/-- Python-dict lookup (last binding) among the argument pairs. -/
def argsLookupStr (args : List (String × String)) (k : String) : Option String :=
  match args.reverse.find? (fun kv => kv.1 == k) with
  | some kv => some kv.2
  | none => none

/-- Is the value an object? -/
def isObjJ : Json → Bool
  | Json.obj _ => true
  | _ => false

/-- Concrete instruments standing in for the two network tools in closed
statements: each reply records which tool ran and with which argument. -/
def testExtTools : ExtTools :=
  ExtTools.mk (fun loc => ToolResult.mk true (("W:") ++ loc))
    (fun query => ToolResult.mk true (("A:") ++ query))

/-- Characters that are neither a brace nor a backtick: the segments the
brace and fence scans step over without effect. -/
def notBraceTick (c : Char) : Bool :=
  decide (c ≠ '{' ∧ c ≠ '}' ∧ c ≠ '`')


/-! ## Parser lemmas: round-tripping the canonical payload serialization -/

/-- JSON whitespace is Python-strip whitespace. -/
theorem jsonWs_le_pyWs (c : Char) (h : jsonWsChar c = true) : pyWsChar c = true := by
  simp only [jsonWsChar, Bool.or_eq_true, decide_eq_true_eq] at h
  simp only [pyWsChar, Bool.or_eq_true, decide_eq_true_eq]
  tauto

/-- `skipWsL` is the identity on a list whose head is not whitespace. -/
theorem skipWs_cons_of_not (c : Char) (t : List Char) (h : jsonWsChar c = false) :
    skipWsL (c :: t) = c :: t := by
  simp [skipWsL, List.dropWhile_cons, h]

/-- A plain character list parses back out of a string literal body. -/
theorem pStrAux_plain (s : List Char) (h : s.all jplainChar = true) (rest : List Char) :
    pStrAux (s ++ '"' :: rest) = some (s, rest) := by
  induction s with
  | nil =>
    unfold pStrAux
    simp
  | cons c s ih =>
    simp only [List.all_cons, Bool.and_eq_true] at h
    obtain ⟨hc, hs⟩ := h
    simp only [jplainChar, decide_eq_true_eq] at hc
    obtain ⟨h1, h2, h3⟩ := hc
    rw [List.cons_append]
    unfold pStrAux
    simp only [if_neg h1, if_neg h2, if_neg (by omega : ¬ c.toNat < 32), ih hs]
    rfl

/-- A plain string value parses in value mode. -/
theorem pAux_val_str (f : Nat) (s : List Char) (h : s.all jplainChar = true)
    (rest : List Char) :
    pAux (f + 1) PM.val ('"' :: (s ++ '"' :: rest)) =
      some (Json.str (String.mk s), rest) := by
  have hws : skipWsL ('"' :: (s ++ '"' :: rest)) = '"' :: (s ++ '"' :: rest) :=
    skipWs_cons_of_not _ _ (by decide)
  unfold pAux
  rw [hws]
  simp [pStrAux_plain s h rest]

/-- `String.mk` undoes `String.toList`. -/
theorem strMk_toList (s : String) : String.mk s.toList = s := rfl

/-- The member loop of the object parser consumes a serialized
comma-separated run of plain string members up to the closing brace. -/
theorem pAux_mem_members (args : List (String × String)) :
    ∀ (b : Bool) (acc : List (String × Json)) (f : Nat) (rest : List Char),
    argsAll jplainChar args = true → args ≠ [] → 2 * args.length + 1 ≤ f →
    pAux f (PM.mem b acc) (serMembers args ++ '}' :: rest) =
      some (Json.obj (acc.reverse ++ argsJson args), rest) := by
  induction args with
  | nil => intro b acc f rest _ hne _; exact absurd rfl hne
  | cons kv args' ih =>
    intro b acc f rest hplain _ hf
    obtain ⟨k, v⟩ := kv
    simp only [argsAll, List.all_cons, Bool.and_eq_true] at hplain
    obtain ⟨⟨hk, hv⟩, hrest⟩ := hplain
    simp only [List.length_cons] at hf
    obtain ⟨f1, rfl⟩ : ∃ f1, f = f1 + 1 := ⟨f - 1, by omega⟩
    obtain ⟨f2, hf1⟩ : ∃ f2, f1 = f2 + 1 := ⟨f1 - 1, by omega⟩
    cases args' with
    | nil =>
      have hshape : serMembers [(k, v)] ++ '}' :: rest =
          '"' :: (k.toList ++ '"' :: (':' :: ('"' :: (v.toList ++ '"' :: ('}' :: rest))))) := by
        simp [serMembers, serMember]
      rw [hshape]
      unfold pAux
      rw [skipWs_cons_of_not _ _ (by decide)]
      simp only [reduceIte, if_neg (by decide : ¬ ('"' : Char) = '}'), if_pos rfl]
      rw [pStrAux_plain k.toList hk]
      simp only
      rw [skipWs_cons_of_not _ _ (by decide)]
      simp only [if_pos rfl]
      rw [hf1, pAux_val_str f2 v.toList hv]
      simp only
      rw [skipWs_cons_of_not _ _ (by decide)]
      simp only [if_neg (by decide : ¬ ('}' : Char) = ','), if_pos rfl]
      simp [strMk_toList, argsJson, List.reverse_cons]
    | cons kv2 args'' =>
      have hshape : serMembers ((k, v) :: kv2 :: args'') ++ '}' :: rest =
          '"' :: (k.toList ++ '"' :: (':' :: ('"' :: (v.toList ++ '"' ::
            (',' :: (serMembers (kv2 :: args'') ++ '}' :: rest)))))) := by
        simp [serMembers, serMember]
      rw [hshape]
      unfold pAux
      rw [skipWs_cons_of_not _ _ (by decide)]
      simp only [if_neg (by decide : ¬ ('"' : Char) = '}'), if_pos rfl]
      rw [pStrAux_plain k.toList hk]
      simp only
      rw [skipWs_cons_of_not _ _ (by decide)]
      simp only [if_pos rfl]
      rw [hf1, pAux_val_str f2 v.toList hv]
      simp only
      rw [skipWs_cons_of_not _ _ (by decide)]
      simp only [if_pos rfl]
      have hfuel2 : 2 * (kv2 :: args'').length + 1 ≤ f1 := by
        simp only [List.length_cons] at hf ⊢
        omega
      rw [← hf1, ih false ((String.mk k.toList, Json.str (String.mk v.toList)) :: acc) f1 rest hrest (by simp) hfuel2]
      simp [strMk_toList, argsJson, List.reverse_cons]

/-- One member whose value parses, followed by a comma: the loop
continues with the member accumulated. -/
theorem pAux_mem_stepA (f : Nat) (b : Bool) (acc : List (String × Json))
    (k : String) (hk : strAll jplainChar k = true) (sv : List Char) (j : Json)
    (cont2 : List Char)
    (hsv : pAux f PM.val (sv ++ ',' :: cont2) = some (j, ',' :: cont2)) :
    pAux (f + 1) (PM.mem b acc) ('"' :: (k.toList ++ '"' :: (':' :: (sv ++ ',' :: cont2)))) =
      pAux f (PM.mem false ((k, j) :: acc)) cont2 := by
  conv_lhs => unfold pAux
  rw [skipWs_cons_of_not _ _ (by decide)]
  simp only [if_neg (by decide : ¬ ('"' : Char) = '}'), if_pos rfl]
  rw [pStrAux_plain k.toList hk]
  simp only
  rw [skipWs_cons_of_not _ _ (by decide)]
  simp only [if_pos rfl]
  rw [hsv]
  simp only
  rw [skipWs_cons_of_not _ _ (by decide)]
  simp [strMk_toList]

/-- One member whose value parses, followed by the closing brace: the
object finishes. -/
theorem pAux_mem_stepB (f : Nat) (b : Bool) (acc : List (String × Json))
    (k : String) (hk : strAll jplainChar k = true) (sv : List Char) (j : Json)
    (cont2 : List Char)
    (hsv : pAux f PM.val (sv ++ '}' :: cont2) = some (j, '}' :: cont2)) :
    pAux (f + 1) (PM.mem b acc) ('"' :: (k.toList ++ '"' :: (':' :: (sv ++ '}' :: cont2)))) =
      some (Json.obj (((k, j) :: acc).reverse), cont2) := by
  unfold pAux
  rw [skipWs_cons_of_not _ _ (by decide)]
  simp only [if_neg (by decide : ¬ ('"' : Char) = '}'), if_pos rfl]
  rw [pStrAux_plain k.toList hk]
  simp only
  rw [skipWs_cons_of_not _ _ (by decide)]
  simp only [if_pos rfl]
  rw [hsv]
  simp only
  rw [skipWs_cons_of_not _ _ (by decide)]
  simp [strMk_toList]

/-- A serialized plain-string-member object parses in value mode. -/
theorem pAux_val_objArgs (f : Nat) (args : List (String × String))
    (hargs : argsAll jplainChar args = true) (rest : List Char)
    (hf : 2 * args.length + 1 ≤ f) :
    pAux (f + 1) PM.val ('{' :: (serMembers args ++ '}' :: rest)) =
      some (Json.obj (argsJson args), rest) := by
  unfold pAux
  rw [skipWs_cons_of_not _ _ (by decide)]
  simp only [if_pos rfl]
  cases args with
  | nil =>
    obtain ⟨f1, rfl⟩ : ∃ f1, f = f1 + 1 := ⟨f - 1, by omega⟩
    simp only [serMembers, List.nil_append]
    unfold pAux
    rw [skipWs_cons_of_not _ _ (by decide)]
    simp [argsJson]
  | cons kv args' =>
    rw [pAux_mem_members (kv :: args') true [] f rest hargs (by simp) hf]
    simp

/-- A canonical payload serialization parses in value mode, leaving the
remainder untouched. -/
theorem pAux_val_ser (name : String) (args : List (String × String)) (f : Nat)
    (rest : List Char)
    (hname : strAll jplainChar name = true) (hargs : argsAll jplainChar args = true)
    (hf : 2 * args.length + 5 ≤ f) :
    pAux f PM.val (serCallList name args ++ rest) = some (callJson name args, rest) := by
  obtain ⟨f1, rfl⟩ : ∃ f1, f = f1 + 1 := ⟨f - 1, by omega⟩
  obtain ⟨f2, rfl⟩ : ∃ f2, f1 = f2 + 1 := ⟨f1 - 1, by omega⟩
  obtain ⟨f3, rfl⟩ : ∃ f3, f2 = f3 + 1 := ⟨f2 - 1, by omega⟩
  obtain ⟨f4, rfl⟩ : ∃ f4, f3 = f4 + 1 := ⟨f3 - 1, by omega⟩
  have hshape : serCallList name args ++ rest =
      '{' :: ('"' :: (("function").toList ++ '"' :: (':' ::
        (('"' :: (name.toList ++ ['"'])) ++ ',' ::
          ('"' :: (("arguments").toList ++ '"' :: (':' ::
            (('{' :: (serMembers args ++ ['}'])) ++ '}' :: rest)))))))) := by
    simp [serCallList, serHead]
  rw [hshape]
  conv_lhs => unfold pAux
  rw [skipWs_cons_of_not _ _ (by decide)]
  simp only [if_pos rfl, reduceIte, if_true]
  have hname2 : strAll jplainChar (("function") : String) = true := by decide
  have hsv1 : pAux (f4 + 2) PM.val
      (('"' :: (name.toList ++ ['"'])) ++ ',' ::
        ('"' :: (("arguments").toList ++ '"' :: (':' ::
          (('{' :: (serMembers args ++ ['}'])) ++ '}' :: rest))))) =
      some (Json.str name, ',' ::
        ('"' :: (("arguments").toList ++ '"' :: (':' ::
          (('{' :: (serMembers args ++ ['}'])) ++ '}' :: rest))))) := by
    have := pAux_val_str (f4 + 1) name.toList (by exact hname)
      (',' :: ('"' :: (("arguments").toList ++ '"' :: (':' ::
        (('{' :: (serMembers args ++ ['}'])) ++ '}' :: rest)))))
    simpa [strMk_toList] using this
  rw [pAux_mem_stepA (f4 + 2) true [] (("function")) hname2 _ _ _ hsv1]
  have hargs2 : strAll jplainChar (("arguments") : String) = true := by decide
  have hsv2 : pAux (f4 + 1) PM.val
      (('{' :: (serMembers args ++ ['}'])) ++ '}' :: rest) =
      some (Json.obj (argsJson args), '}' :: rest) := by
    have h5 : ('{' :: (serMembers args ++ ['}'])) ++ '}' :: rest =
        '{' :: (serMembers args ++ '}' :: ('}' :: rest)) := by simp
    rw [h5]
    exact pAux_val_objArgs f4 args hargs ('}' :: rest) (by omega)
  rw [pAux_mem_stepB (f4 + 1) false _ (("arguments")) hargs2 _ _ _ hsv2]
  simp [callJson]

/-- Serialized members are at least as long as the member list. -/
theorem serMembers_length (args : List (String × String)) :
    args.length ≤ (serMembers args).length := by
  induction args with
  | nil => simp [serMembers]
  | cons kv args' ih =>
    cases args' with
    | nil => simp [serMembers, serMember]
    | cons kv2 args'' =>
      simp only [serMembers, serMember, List.length_append, List.length_cons] at ih ⊢
      omega

/-- The serialization is long enough to make the default parsing fuel
sufficient. -/
theorem serCallList_length (name : String) (args : List (String × String)) :
    args.length + 1 ≤ (serCallList name args).length := by
  have := serMembers_length args
  simp only [serCallList, serHead, List.length_cons, List.length_append]
  omega

/-- `json.loads` recovers a canonically serialized payload. -/
theorem jsonLoadsL_ser (name : String) (args : List (String × String))
    (hname : strAll jplainChar name = true) (hargs : argsAll jplainChar args = true) :
    jsonLoadsL (serCallList name args) = some (callJson name args) := by
  have hlen := serCallList_length name args
  have h1 : pAux (2 * (serCallList name args).length + 4) PM.val
      (serCallList name args ++ []) = some (callJson name args, []) :=
    pAux_val_ser name args _ [] hname hargs (by omega)
  rw [List.append_nil] at h1
  simp [jsonLoadsL, h1, skipWsL]

/-- Dropping a trailing run is the identity when the last character is not
in the run class. -/
theorem rdropWhile_eq_self (p : Char → Bool) (l : List Char)
    (h : ∀ x, l.reverse.head? = some x → p x = false) : rdropWhile p l = l := by
  unfold rdropWhile
  cases hr : l.reverse with
  | nil =>
    have : l = [] := by
      have := congrArg List.reverse hr
      simpa using this
    simp [this]
  | cons c t =>
    rw [List.dropWhile_cons, h c (by rw [hr]; rfl)]
    simp only [Bool.false_eq_true, if_false, ← hr, List.reverse_reverse]

/-- A canonical payload serialization is already stripped. -/
theorem pyStripL_serCall (name : String) (args : List (String × String)) :
    pyStripL (serCallList name args) = serCallList name args := by
  unfold pyStripL
  have h1 : (serCallList name args).dropWhile pyWsChar = serCallList name args := by
    simp [serCallList, List.dropWhile_cons, (by decide : pyWsChar ('{') = false)]
  rw [h1]
  apply rdropWhile_eq_self
  intro x hx
  have hshape : serCallList name args =
      ('{' :: (serHead name ++ '{' :: serMembers args ++ ['}'])) ++ ['}'] := by
    simp [serCallList]
  rw [hshape, List.reverse_append] at hx
  simp at hx
  subst hx
  decide

/-- `isFnObj` holds of every canonical payload value. -/
theorem isFnObj_callJson (name : String) (args : List (String × String)) :
    isFnObj (callJson name args) = true := by
  simp [isFnObj, callJson]

/-- The extractor recovers a canonical payload given as the whole input
(strategy 1). -/
theorem extract_ser (name : String) (args : List (String × String))
    (hname : strAll jplainChar name = true) (hargs : argsAll jplainChar args = true) :
    extract_json_call (serializeCall name args) = some (callJson name args) := by
  unfold extract_json_call
  have ht : (serializeCall name args).toList = serCallList name args := rfl
  rw [ht, pyStripL_serCall]
  rw [jsonLoadsL_ser name args hname hargs]
  simp only [isFnObj_callJson, if_true]

/-- Object lookup on a decoded arguments object is Python-dict lookup on
the original pairs. -/
theorem lastLookup_argsJson (args : List (String × String)) (k : String) :
    lastLookup (argsJson args) k = (argsLookupStr args k).map Json.str := by
  unfold lastLookup argsLookupStr argsJson
  rw [← List.map_reverse, List.find?_map]
  have hp : ((fun kv => kv.1 == k) ∘ fun kv => ((kv : String × String).1, Json.str kv.2)) =
      (fun kv => kv.1 == k) := by
    funext kv
    rfl
  rw [hp]
  cases args.reverse.find? (fun kv => kv.1 == k) <;> rfl

/-- `args.get(key, "")` on a decoded canonical arguments object. -/
theorem argStr_argsJson (args : List (String × String)) (k : String) :
    argStr (Json.obj (argsJson args)) k =
      Except.ok ((argsLookupStr args k).getD ("")) := by
  have h0 : argStr (Json.obj (argsJson args)) k =
      (match lastLookup (argsJson args) k with
       | none => Except.ok ("")
       | some Json.null => Except.ok ("")
       | some (Json.str s) => Except.ok s
       | some v => Except.ok (pyStr (some v))) := rfl
  rw [h0, lastLookup_argsJson]
  cases argsLookupStr args k <;> rfl

/-- The arguments value extracted by the router from a canonical payload:
a falsy (empty) object is replaced by `{}`, which coincides with it. -/
theorem routeArgs_callJson (args : List (String × String)) :
    (if pyTruthy (Json.obj (argsJson args)) = true then Json.obj (argsJson args)
     else Json.obj []) = Json.obj (argsJson args) := by
  cases args <;> simp [pyTruthy, argsJson]


/-- Routing a canonically serialized payload: extraction succeeds, the
alias table is applied to the string name, and the dispatcher runs on the
decoded arguments under the catch-all handler.  The network tools appear
only through the `ext` parameter, so which tool (if any) runs is fully
determined by the resolved name. -/
theorem try_route_ser (ext : ExtTools) (name : String) (args : List (String × String))
    (hname : strAll jplainChar name = true) (hargs : argsAll jplainChar args = true) :
    try_route_llm_function_call ext (serializeCall name args) =
      Except.ok (some
        (match dispatchTry ext (some (Json.str (aliasLookup name)))
            (Json.obj (argsJson args)) with
         | Except.ok reply => reply
         | Except.error e =>
           ("Error: Could not process function call. Details: ") ++ e)) := by
  unfold try_route_llm_function_call
  rw [extract_ser name args hname hargs]
  have h1 : pyTruthy (callJson name args) = true := rfl
  have h2 : pyFieldGet (callJson name args) (("function")) = some (Json.str name) := rfl
  have h3 : (match callJson name args with
             | Json.obj l => lastLookup l (("arguments"))
             | _ => none) = some (Json.obj (argsJson args)) := rfl
  simp only [h1, h3, Bool.not_true, Bool.false_eq_true, if_false]
  have h4 : aliasResolveE (pyFieldGet (callJson name args) (("function"))) =
      Except.ok (some (Json.str (aliasLookup name))) := by
    rw [h2]
    rfl
  rw [h4]
  simp [routeArgs_callJson]

/-- An unregistered resolved name takes the unknown-function branch. -/
theorem dispatchTry_unknown (ext : ExtTools) (F : String) (argsj : Json)
    (h1 : F ≠ ("get_weather")) (h2 : F ≠ ("calculate")) (h3 : F ≠ ("search_arxiv")) :
    dispatchTry ext (some (Json.str F)) argsj =
      Except.ok (("Error: Unknown function '") ++ F ++ ("'")) := by
  unfold dispatchTry
  simp only [if_neg h1, if_neg h2, if_neg h3]

/-- The `search_arxiv` branch of the dispatcher on canonical arguments. -/
theorem dispatchTry_arxiv (ext : ExtTools) (args : List (String × String)) :
    dispatchTry ext (some (Json.str ("search_arxiv"))) (Json.obj (argsJson args)) =
      Except.ok (dispatchReply ("search_arxiv")
        (ext.search_arxiv ((argsLookupStr args ("query")).getD ("")))) := by
  unfold dispatchTry
  simp only [reduceIte, argStr_argsJson]
  rfl

/-- C7: alias resolution is applied once before dispatch.  For every
string-valued arguments object `A` (the data model of this system), a call
named `recent_papers` with arguments `A` produces exactly the same router
result as a call named `search_arxiv` with arguments `A`; that common
result dispatches the `search_arxiv` tool of the (arbitrary) tool record
with the `query` argument, so an aliased name never reaches the
unknown-function branch; and every name in the alias table resolves to the
registered tool `search_arxiv`. -/
theorem c7_alias_equivalence (ext : ExtTools) (args : List (String × String))
    (hargs : argsAll jplainChar args = true) :
    (try_route_llm_function_call ext (serializeCall ("recent_papers") args) =
      try_route_llm_function_call ext (serializeCall ("search_arxiv") args))
    ∧ (try_route_llm_function_call ext (serializeCall ("recent_papers") args) =
      Except.ok (some (dispatchReply ("search_arxiv")
        (ext.search_arxiv ((argsLookupStr args ("query")).getD ("")))))) 
    ∧ (∀ kv ∈ ALIASES, aliasLookup kv.1 = ("search_arxiv")) := by
  refine ⟨?_, ?_, ?_⟩
  · rw [try_route_ser ext (("recent_papers")) args (by decide) hargs,
      try_route_ser ext (("search_arxiv")) args (by decide) hargs]
    rfl
  · rw [try_route_ser ext (("recent_papers")) args (by decide) hargs]
    have ha : aliasLookup (("recent_papers")) = ("search_arxiv") := rfl
    rw [ha, dispatchTry_arxiv]
  · decide

/-- Witness for C7 at the concrete arguments `{"query":"x"}`: both
serialized calls route to the instrumented `search_arxiv` with query
`"x"`. -/
theorem c7_alias_equivalence_witness :
    try_route_llm_function_call testExtTools
        (serializeCall ("recent_papers") [(("query"), ("x"))]) =
      try_route_llm_function_call testExtTools
        (serializeCall ("search_arxiv") [(("query"), ("x"))])
    ∧ try_route_llm_function_call testExtTools
        (serializeCall ("recent_papers") [(("query"), ("x"))]) =
      Except.ok (some ("A:x")) := by
  have h := c7_alias_equivalence testExtTools [(("query"), ("x"))] (by decide)
  exact ⟨h.1, h.2.1⟩

/-- C8: a well-formed payload whose function name resolves (through the
alias table) to something other than the three registered tools is
answered with exactly `Error: Unknown function '<resolved name>'`; the
tool record `ext` is arbitrary and does not occur in the reply, so no tool
is invoked. -/
theorem c8_unknown_function_error (ext : ExtTools) (name : String)
    (args : List (String × String))
    (hname : strAll jplainChar name = true) (hargs : argsAll jplainChar args = true)
    (h1 : aliasLookup name ≠ ("get_weather"))
    (h2 : aliasLookup name ≠ ("calculate"))
    (h3 : aliasLookup name ≠ ("search_arxiv")) :
    try_route_llm_function_call ext (serializeCall name args) =
      Except.ok (some (("Error: Unknown function '") ++ aliasLookup name ++ ("'"))) := by
  rw [try_route_ser ext name args hname hargs,
    dispatchTry_unknown ext (aliasLookup name) (Json.obj (argsJson args)) h1 h2 h3]

/-- Witness for C8 at the unregistered name `foo` with empty arguments. -/
theorem c8_unknown_function_error_witness :
    try_route_llm_function_call testExtTools (serializeCall ("foo") []) =
      Except.ok (some ("Error: Unknown function 'foo'")) := by
  have h := c8_unknown_function_error testExtTools (("foo")) [] (by decide) (by decide)
    (by decide) (by decide) (by decide)
  exact h

/-- Strategy 2 returns only qualifying objects. -/
theorem tryBlocks_sound (bs : List (List Char)) :
    ∀ v : Json, tryBlocks bs = some v → isFnObj v = true := by
  induction bs with
  | nil => intro v h; simp [tryBlocks] at h
  | cons b bs ih =>
    intro v h
    unfold tryBlocks at h
    split at h
    · split at h
      · injection h with h2
        subst h2
        assumption
      · exact ih v h
    · exact ih v h

/-- Strategy 3's scan returns only qualifying objects. -/
theorem scanChunks_sound (orig : List Char) (l : List Char) :
    ∀ (taken : Nat) (d : Int) (v : Json),
      scanChunks orig taken d l = some v → isFnObj v = true := by
  induction l with
  | nil => intro taken d v h; simp [scanChunks] at h
  | cons c t ih =>
    intro taken d v h
    unfold scanChunks at h
    repeat' split at h
    all_goals
      first
      | (injection h with h2; subst h2; assumption)
      | (exact ih _ _ v h)
      | (exact Option.noConfusion h)

/-- Everything the extractor returns is an object with a `"function"`
member: an input with no parseable qualifying payload yields `none`. -/
theorem extract_sound (s : String) (v : Json)
    (h : extract_json_call s = some v) : isFnObj v = true := by
  have hfb : ∀ (l : List Char), extractFallback l = some v → isFnObj v = true := by
    intro l hb
    unfold extractFallback at hb
    split at hb
    · rename_i obj heq
      injection hb with h3
      subst h3
      exact tryBlocks_sound _ _ heq
    · unfold strat3 at hb
      split at hb
      · exact Option.noConfusion hb
      · exact scanChunks_sound _ _ _ _ v hb
  unfold extract_json_call at h
  split at h
  · split at h
    · injection h with h2
      subst h2
      assumption
    · exact hfb _ h
  · exact hfb _ h

/-! ## Claim theorems -/

/-- C1 (code bug): the router CAN raise.  On the well-formed payload
`{"function": [], "arguments": {}}` the extractor succeeds, and the alias
lookup `ALIASES.get(func, func)` on router.py line 125 — which sits
outside the `try` that begins on line 128 — is a Python dict lookup with
an unhashable list key: it raises `TypeError` to the caller, for every
tool record.  This contradicts the claim (and the spec's contract) that
`try_route_llm_function_call` always returns a reply or the no-call
sentinel. -/
theorem c1_alias_lookup_raises (ext : ExtTools) :
    try_route_llm_function_call ext ("\x7b\"function\": [], \"arguments\": \x7b\x7d\x7d") =
      Except.error ("TypeError: unhashable type: 'list'") := by
  rfl

/-- C2 (counterexample): on the exact input `what is five plus three` the
normalized expression evaluates to a failed calculation, not to the reply
`"8"`: number words are never translated to digits, so the normalizer
output is just `"+"`. -/
theorem c2_number_words_counterexample :
    (calculate (text_to_math_expr ("what is five plus three"))).ok = false
    ∧ (calculate (text_to_math_expr ("what is five plus three"))).content ≠ ("8") := by
  exact ⟨by rfl, by decide⟩

/-- C2 (amended): `text_to_math_expr "what is five plus three"` is `"+"`,
which indeed contains exactly one `'+'` and no letters; but since number
words are not converted to digits, `calculate` on it reports a failure
rather than `"8"`.  The digit form `what is 5 plus 3` normalizes to
`"5+3"` and `calculate` yields `"8"`. -/
theorem c2_normalizer_plus_amended :
    text_to_math_expr ("what is five plus three") = ("+")
    ∧ (text_to_math_expr ("what is five plus three")).toList.count '+' = 1
    ∧ (text_to_math_expr ("what is five plus three")).toList.all
        (fun c => !c.isAlpha) = true
    ∧ (calculate (text_to_math_expr ("what is five plus three"))).ok = false
    ∧ text_to_math_expr ("what is 5 plus 3") = ("5+3")
    ∧ calculate ("5+3") = ToolResult.mk true ("8") := by
  refine ⟨by rfl, by rfl, by rfl, by rfl, by rfl, by rfl⟩

/-- C9 (counterexample): the input `5加3` does NOT normalize to `5+3`.
CJK ideographs are word characters for `\b`, so `\b加\b` has no match
between the digits; the operator word is stripped by the character filter
and the output is `"53"`. -/
theorem c9_cjk_between_digits_counterexample :
    text_to_math_expr ("5加3") = ("53")
    ∧ text_to_math_expr ("5加3") ≠ ("5+3") := by
  exact ⟨by rfl, by decide⟩

/-- C9 (amended): the localized operator substitutions are present and are
applied with word-boundary matching in which CJK ideographs count as word
characters.  A localized operator delimited by non-word characters is
substituted — `5 加 3` → `5+3`, `5 减 3` → `5-3`, `5 乘 3` → `5*3`,
`5 除 3` → `5/3` — while one directly between digits (`5加3`) has no word
boundary, is not substituted, and is stripped to `53`. -/
theorem c9_cjk_operators_amended :
    text_to_math_expr ("5 加 3") = ("5+3")
    ∧ text_to_math_expr ("5 减 3") = ("5-3")
    ∧ text_to_math_expr ("5 乘 3") = ("5*3")
    ∧ text_to_math_expr ("5 除 3") = ("5/3")
    ∧ isWordChar '加' = true
    ∧ text_to_math_expr ("5加3") = ("53") := by
  refine ⟨by rfl, by rfl, by rfl, by rfl, by rfl, by rfl⟩

/-- C10 (counterexample): the utterance `papers (19)` contains a digit
adjacent to `'('` and `')'`, yet the rule fallback dispatches
`search_arxiv` (the instrumented tool replies `A:…`), not `calculate`:
parentheses survive normalization but are not in the operator class of the
dispatch test, so the claimed calculate dispatch (whose reply here would
be the content of `calculate`) does not happen. -/
theorem c10_paren_digit_counterexample :
    maybe_call_by_rules testExtTools ("papers (19)") = some ("A:papers (19)")
    ∧ maybe_call_by_rules testExtTools ("papers (19)") ≠
        some ((calculate (text_to_math_expr ("papers (19)"))).content) := by
  exact ⟨by rfl, by decide⟩

/-- C10 (amended): a token in which a digit is adjacent to one of
`+ - * / %` makes the normalized residue contain an operator and the rule
fallback dispatches `calculate` with that residue even in the presence of
literature keywords — `papers on covid-19` dispatches `calculate("-19")`
and replies `-19` for every tool record.  Digits adjacent only to
parentheses (e.g. `papers (19)`) do not trigger the calculate branch and
fall through to the keyword rules (here `search_arxiv`). -/
theorem c10_operator_residue_amended :
    (∀ ext : ExtTools, maybe_call_by_rules ext ("papers on covid-19") = some ("-19"))
    ∧ text_to_math_expr ("papers on covid-19") = ("-19")
    ∧ (∀ ext : ExtTools, maybe_call_by_rules ext ("papers (19)") =
        some (dispatchReply ("search_arxiv") (ext.search_arxiv ("papers (19)")))) := by
  exact ⟨fun ext => by rfl, by rfl, fun ext => by rfl⟩

/-- A nonempty operator search means a nonempty string. -/
theorem ne_empty_of_hasMathOp (s : String) (h : hasMathOp s.toList = true) :
    s ≠ ("") := by
  intro he
  rw [he] at h
  simp [hasMathOp] at h

/-- C5: the arithmetic check runs before every keyword rule.  For every
utterance whose normalized expression contains an operator of the dispatch
test's class, the rule fallback dispatches `calculate` on that expression —
for every tool record, so the weather and arXiv tools are never consulted —
even when the utterance also contains weather or literature keywords
(the quantification over `u` covers such utterances; the witness
instantiates the claim's `what is five plus three weather`). -/
theorem c5_math_precedes_keywords (ext : ExtTools) (u : String)
    (h : hasMathOp (ruleExpr u).toList = true) :
    maybe_call_by_rules ext u =
      some (dispatchReply ("calculate") (calculate (ruleExpr u))) := by
  unfold maybe_call_by_rules
  rw [if_pos ⟨ne_empty_of_hasMathOp _ h, h⟩]

/-- Witness for C5 at `what is five plus three weather`, which contains
the weather keyword yet routes to `calculate`. -/
theorem c5_math_precedes_keywords_witness :
    hasMathOp (ruleExpr ("what is five plus three weather")).toList = true
    ∧ maybe_call_by_rules testExtTools ("what is five plus three weather") =
      some (dispatchReply ("calculate")
        (calculate (ruleExpr ("what is five plus three weather")))) := by
  exact ⟨by rfl, c5_math_precedes_keywords testExtTools
    ("what is five plus three weather") (by rfl)⟩

/-- C4: every value the extractor returns is an object containing a
`"function"` member (so an input with no parseable function-call payload
yields the no-call result; the extractor is a total function and cannot
raise); and the claim's three scenarios hold: unbalanced braces yield no
call, a valid object lacking `function` is rejected, and when the minimal
balanced chunk at the first `{"function"` fails to parse the extractor
stops without scanning the later, valid occurrence. -/
theorem c4_no_payload_no_call :
    (∀ (s : String) (v : Json), extract_json_call s = some v → isFnObj v = true)
    ∧ extract_json_call ("\x7b\"function\": \"calculate\"") = none
    ∧ extract_json_call ("\x7b\"a\": 1\x7d") = none
    ∧ extract_json_call
        ("\x7b\"function\" oops\x7d \x7b\"function\": \"calculate\", \"arguments\": \x7b\x7d\x7d")
        = none := by
  exact ⟨extract_sound, by rfl, by rfl, by rfl⟩

/-- Witness for C4's soundness conjunct at a concrete input: the payload
extracted from the claim's prose example qualifies. -/
theorem c4_no_payload_no_call_witness :
    isFnObj (Json.obj [(("function"), Json.str ("calculate")),
      (("arguments"), Json.obj [(("expression"), Json.str ("2+2"))])]) = true := by
  exact c4_no_payload_no_call.1
    ("Here's the call: \x7b\"function\":\"calculate\",\"arguments\":\x7b\"expression\":\"2+2\"\x7d\x7d thanks")
    (Json.obj [(("function"), Json.str ("calculate")),
      (("arguments"), Json.obj [(("expression"), Json.str ("2+2"))])])
    (by rfl)

/-- Digit rendering never contains a decimal point. -/
theorem natStrAux_no_dot (f : Nat) : ∀ n : Nat, '.' ∉ natStrAux f n := by
  induction f with
  | zero => intro n; simp [natStrAux]
  | succ f ih =>
    intro n
    unfold natStrAux
    split
    · rename_i hlt
      intro hmem
      simp only [List.mem_singleton] at hmem
      interval_cases n <;> simp_all
    · intro hmem
      rw [List.mem_append] at hmem
      rcases hmem with hmem | hmem
      · exact ih (n / 10) hmem
      · simp only [List.mem_singleton] at hmem
        have h10 : n % 10 < 10 := Nat.mod_lt _ (by omega)
        generalize hgen : n % 10 = k at hmem h10
        interval_cases k <;> simp_all

/-- Integer rendering never contains a decimal point. -/
theorem no_dot_intStr (n : Int) : '.' ∉ (intStr n).toList := by
  unfold intStr
  split
  · intro hmem
    have hsplit : ((("-") : String) ++ natStr n.natAbs).toList =
        (("-") : String).toList ++ (natStr n.natAbs).toList := rfl
    rw [hsplit, List.mem_append] at hmem
    rcases hmem with hmem | hmem
    · simp at hmem
    · exact natStrAux_no_dot _ _ hmem
  · intro hmem
    exact natStrAux_no_dot _ _ hmem

/-- A near-integer value renders with no decimal point. -/
theorem formatVal_int_no_dot (q : PyRat) (h : almostInt q = true) :
    '.' ∉ (formatVal q).toList := by
  unfold formatVal
  rw [if_pos h]
  exact no_dot_intStr _

/-- The formatter never emits the literal `-0.00`. -/
theorem formatVal_ne_neg000 (q : PyRat) : formatVal q ≠ ("-0.00") := by
  unfold formatVal
  split
  · intro heq
    have hd := no_dot_intStr (pyRoundQ q)
    rw [heq] at hd
    exact hd (by decide)
  · split
    · decide
    · split
      · decide
      · rename_i hne
        exact hne

/-- A non-near-integer value renders as the half-up two-decimal string,
except that a negative zero normalizes to `0.00`. -/
theorem formatVal_halfup (q : PyRat) (h : almostInt q = false) :
    formatVal q = centsRender (halfUpCents q) ∨ formatVal q = ("0.00") := by
  unfold formatVal
  rw [if_neg (by simp [h])]
  split
  · exact Or.inr rfl
  · split
    · exact Or.inr rfl
    · exact Or.inl rfl

/-- The tool never replies with the literal `-0.00`. -/
theorem calculate_ne_neg000 (s : String) : (calculate s).content ≠ ("-0.00"):= by
  unfold calculate
  split
  · exact formatVal_ne_neg000 _
  · decide

/-- C6: the output formatting of `calculate`.  The claimed instances:
`1/3` gives `0.33`, `4/2` gives `2` (integer form, no decimal point),
the quotient of 0 by -1 gives `0` and in particular never `-0.00`; in general no reply of
the tool is ever `-0.00`, a near-integer result renders with no decimal
point, and a non-integer result renders as the half-up two-decimal string
(with negative zero normalized to `0.00`). -/
theorem c6_calculate_formatting :
    calculate ("1/3") = ToolResult.mk true ("0.33")
    ∧ calculate ("4/2") = ToolResult.mk true ("2")
    ∧ calculate ("0/-1") = ToolResult.mk true ("0")
    ∧ (∀ s : String, (calculate s).content ≠ ("-0.00"))
    ∧ (∀ q : PyRat, almostInt q = true → '.' ∉ (formatVal q).toList)
    ∧ (∀ q : PyRat, almostInt q = false →
        formatVal q = centsRender (halfUpCents q) ∨ formatVal q = ("0.00")) := by
  exact ⟨by rfl, by rfl, by rfl, calculate_ne_neg000, formatVal_int_no_dot,
    formatVal_halfup⟩

/-- Witness for C6's hypothesized conjuncts at the concrete values `8`
(a near-integer) and `1/3` (not a near-integer). -/
theorem c6_calculate_formatting_witness :
    ('.' ∉ (formatVal (qOfInt 8)).toList)
    ∧ (formatVal (mkQ 1 3) = centsRender (halfUpCents (mkQ 1 3))
        ∨ formatVal (mkQ 1 3) = ("0.00")) := by
  exact ⟨c6_calculate_formatting.2.2.2.2.1 (qOfInt 8) (by rfl),
    c6_calculate_formatting.2.2.2.2.2 (mkQ 1 3) (by rfl)⟩

theorem xplain_to_jplain (s : String) (h : strAll xplainChar s = true) :
    strAll jplainChar s = true := by
  simp only [strAll, List.all_eq_true] at h ⊢
  intro c hc
  have := h c hc
  simp only [xplainChar, Bool.and_eq_true] at this
  exact this.1

theorem xplainArgs_to_jplain (args : List (String × String))
    (h : argsAll xplainChar args = true) : argsAll jplainChar args = true := by
  simp only [argsAll, List.all_eq_true] at h ⊢
  intro kv hkv
  have := h kv hkv
  simp only [Bool.and_eq_true] at this ⊢
  exact ⟨xplain_to_jplain _ this.1, xplain_to_jplain _ this.2⟩

theorem xplain_nbt (s : String) (h : strAll xplainChar s = true) :
    s.toList.all notBraceTick = true := by
  simp only [strAll, List.all_eq_true] at h ⊢
  intro c hc
  have := h c hc
  simp only [xplainChar, Bool.and_eq_true, decide_eq_true_eq] at this
  simp only [notBraceTick, decide_eq_true_eq]
  exact this.2

theorem serHead_nbt (name : String) (h : strAll xplainChar name = true) :
    (serHead name).all notBraceTick = true := by
  simp only [serHead, List.all_append, Bool.and_eq_true]
  exact ⟨⟨by decide, (xplain_nbt name h)⟩, by decide⟩

theorem serMember_nbt (kv : String × String)
    (hk : strAll xplainChar kv.1 = true) (hv : strAll xplainChar kv.2 = true) :
    (serMember kv).all notBraceTick = true := by
  simp only [serMember, List.all_cons, List.all_append, Bool.and_eq_true]
  exact ⟨⟨⟨by decide, xplain_nbt kv.1 hk⟩, by decide, by decide, by decide,
    xplain_nbt kv.2 hv⟩, by decide, by decide⟩

theorem serMembers_nbt (args : List (String × String))
    (h : argsAll xplainChar args = true) :
    (serMembers args).all notBraceTick = true := by
  induction args with
  | nil => decide
  | cons kv args' ih =>
    simp only [argsAll, List.all_cons, Bool.and_eq_true] at h
    obtain ⟨⟨hk, hv⟩, hrest⟩ := h
    cases args' with
    | nil => exact serMember_nbt kv hk hv
    | cons kv2 args'' =>
      simp only [serMembers, List.all_append, List.all_cons, Bool.and_eq_true]
      exact ⟨serMember_nbt kv hk hv, by decide, ih hrest⟩

theorem dropWhile_append_of_head (p : Char → Bool) (a : List Char) (c : Char)
    (t : List Char) (hc : p c = false) :
    (a ++ c :: t).dropWhile p = a.dropWhile p ++ c :: t := by
  induction a with
  | nil => simp [List.dropWhile_cons, hc]
  | cons d a' ih =>
    by_cases hd : p d
    · simp [List.dropWhile_cons, hd, ih]
    · simp [List.dropWhile_cons, hd]

theorem rdropWhile_append_of_last (p : Char → Bool) (a : List Char) (c : Char)
    (t : List Char) (hc : p c = false) :
    rdropWhile p ((a ++ [c]) ++ t) = (a ++ [c]) ++ rdropWhile p t := by
  unfold rdropWhile
  have h1 : ((a ++ [c]) ++ t).reverse = t.reverse ++ c :: a.reverse := by
    simp
  rw [h1, dropWhile_append_of_head p t.reverse c a.reverse hc]
  simp

theorem head_dropWhile_not (p : Char → Bool) (l : List Char) :
    ∀ (c : Char) (t : List Char), l.dropWhile p = c :: t → p c = false := by
  induction l with
  | nil => intro c t h; simp [List.dropWhile] at h
  | cons d l' ih =>
    intro c t h
    rw [List.dropWhile_cons] at h
    by_cases hd : p d
    · rw [if_pos hd] at h
      exact ih c t h
    · rw [if_neg hd] at h
      injection h with h1 _
      subst h1
      simpa using hd

/-- Stripping around a canonical serialization trims only the prose. -/
theorem pyStripL_decomp (name : String) (args : List (String × String))
    (p1 p2 : List Char) :
    pyStripL (p1 ++ serCallList name args ++ p2) =
      p1.dropWhile pyWsChar ++ serCallList name args ++ rdropWhile pyWsChar p2 := by
  have hser : serCallList name args =
      '{' :: (serHead name ++ '{' :: serMembers args ++ ['}']) ++ ['}'] := by
    simp [serCallList]
  unfold pyStripL
  have h1 : (p1 ++ serCallList name args ++ p2).dropWhile pyWsChar =
      p1.dropWhile pyWsChar ++ serCallList name args ++ p2 := by
    have : p1 ++ serCallList name args ++ p2 =
        p1 ++ ('{' :: ((serHead name ++ '{' :: serMembers args ++ ['}']) ++ ['}'] ++ p2)) := by
      rw [hser]; simp
    rw [this, dropWhile_append_of_head pyWsChar p1 '{' _ (by decide), hser]
    simp
  rw [h1]
  have h2 : p1.dropWhile pyWsChar ++ serCallList name args ++ p2 =
      ((p1.dropWhile pyWsChar ++ ('{' :: (serHead name ++ '{' :: serMembers args ++ ['}']))) ++ ['}']) ++ p2 := by
    rw [hser]; simp
  rw [h2, rdropWhile_append_of_last pyWsChar _ '}' p2 (by decide), hser]
  simp

/-- Array-mode results are arrays. -/
theorem pAux_elems_not_obj : ∀ (f : Nat) (acc : List Json) (l : List Char)
    (v : Json) (r : List Char), pAux f (PM.elems acc) l = some (v, r) →
    isObjJ v = false := by
  intro f
  induction f with
  | zero => intro acc l v r h; simp [pAux] at h
  | succ f ih =>
    intro acc l v r h
    unfold pAux at h
    split at h
    · exact Option.noConfusion h
    · split at h
      · exact Option.noConfusion h
      · split at h
        · exact ih _ _ _ _ h
        · split at h
          · injection h with h2
            injection h2 with ha hb
            subst ha
            rfl
          · exact Option.noConfusion h

/-- A value whose parse did not start at an opening brace is not an
object. -/
theorem pAux_val_not_obj (f : Nat) (l : List Char) (v : Json) (r : List Char)
    (h : pAux f PM.val l = some (v, r))
    (hh : (skipWsL l).head? ≠ some '{') : isObjJ v = false := by
  cases f with
  | zero => simp [pAux] at h
  | succ f =>
    unfold pAux at h
    split at h
    · exact Option.noConfusion h
    · rename_i c t heq
      have hc : ¬ c = '{' := by
        intro he
        apply hh
        rw [heq, he]
        rfl
      rw [if_neg hc] at h
      split at h
      · split at h
        · injection h with h2
          injection h2 with ha hb
          subst ha
          rfl
        · exact pAux_elems_not_obj f [] t v r h
      · split at h
        · cases hps : pStrAux t with
          | none => rw [hps] at h; exact Option.noConfusion h
          | some p =>
            rw [hps] at h
            injection h with h2
            injection h2 with ha hb
            subst ha
            rfl
        · split at h
          · split at h
            · injection h with h2
              injection h2 with ha hb
              subst ha
              rfl
            · exact Option.noConfusion h
          · split at h
            · split at h
              · injection h with h2
                injection h2 with ha hb
                subst ha
                rfl
              · exact Option.noConfusion h
            · split at h
              · split at h
                · injection h with h2
                  injection h2 with ha hb
                  subst ha
                  rfl
                · exact Option.noConfusion h
              · split at h
                · cases hpn : pNum (c :: t) with
                  | none => rw [hpn] at h; exact Option.noConfusion h
                  | some p =>
                    rw [hpn] at h
                    injection h with h2
                    injection h2 with ha hb
                    subst ha
                    rfl
                · exact Option.noConfusion h

/-- No fence match can start at a non-backtick character. -/
theorem fenceMatchAt_none (c : Char) (t : List Char) (hc : c ≠ '`') :
    fenceMatchAt (c :: t) = none := by
  have hpre : (['`', '`', '`']).isPrefixOf (c :: t) = false := by
    have h1 : ('`' == c) = false := by
      simp only [beq_eq_false_iff_ne, ne_eq]
      exact fun he => hc he.symm
    show ('`' == c && (['`', '`']).isPrefixOf t) = false
    rw [h1]
    rfl
  unfold fenceMatchAt
  rw [hpre]
  rfl

/-- A backtick-free input has no fenced blocks. -/
theorem fenceScan_no_backtick (f : Nat) : ∀ l : List Char,
    l.all notBraceTick = true → fenceScan f l = [] := by
  induction f with
  | zero => intro l _; rfl
  | succ f ih =>
    intro l hall
    cases l with
    | nil => rfl
    | cons c t =>
      simp only [List.all_cons, Bool.and_eq_true] at hall
      have hc : c ≠ '`' := by
        have := hall.1
        simp only [notBraceTick, decide_eq_true_eq] at this
        exact this.2.2
      unfold fenceScan
      rw [fenceMatchAt_none c t hc]
      exact ih t hall.2

/-- The serialized payload as the search pattern: `serCallList` starts
with the literal `{"function"`. -/
theorem serCall_fnPat (name : String) (args : List (String × String)) :
    serCallList name args = fnPat ++ (':' :: '"' :: name.toList ++
      ("\",\"arguments\":").toList ++ '{' :: serMembers args ++ ['}', '}']) := by
  have hd : (("\"function\":\"") : String).toList =
      (("\"function\"") : String).toList ++ [':', '"'] := by rfl
  simp [serCallList, serHead, fnPat, hd]

/-- The pattern search skips a `{`-free prefix entirely. -/
theorem firstIdxOfAux_skip (pat : List Char) (hpat : ∃ pt, pat = '{' :: pt) :
    ∀ (p1 : List Char), (∀ c ∈ p1, c ≠ '{') → ∀ (i : Nat) (rest : List Char),
    firstIdxOfAux pat i (p1 ++ rest) = firstIdxOfAux pat (i + p1.length) rest := by
  obtain ⟨pt, rfl⟩ := hpat
  intro p1
  induction p1 with
  | nil => intro _ i rest; simp
  | cons c p1' ih =>
    intro hp1 i rest
    have hc : c ≠ '{' := hp1 c (by simp)
    have hpre : (('{' :: pt).isPrefixOf (c :: (p1' ++ rest))) = false := by
      show ('{' == c && pt.isPrefixOf (p1' ++ rest)) = false
      have h1 : ('{' == c) = false := by
        simp only [beq_eq_false_iff_ne, ne_eq]
        exact fun he => hc he.symm
      rw [h1]
      rfl
    rw [List.cons_append]
    conv_lhs => unfold firstIdxOfAux
    rw [hpre]
    simp only [Bool.false_eq_true, if_false]
    rw [ih (fun c hc2 => hp1 c (by simp [hc2])) (i + 1) rest]
    have harith : i + 1 + p1'.length = i + (c :: p1').length := by
      simp only [List.length_cons]
      omega
    rw [harith]
  
/-- The pattern is found exactly where it begins. -/
theorem firstIdxOfAux_here (pat : List Char) (l : List Char)
    (h : pat.isPrefixOf l = true) (i : Nat) : firstIdxOfAux pat i l = some i := by
  cases l with
  | nil =>
    cases pat with
    | nil => rfl
    | cons p pt => simp [List.isPrefixOf] at h
  | cons c t =>
    unfold firstIdxOfAux
    rw [h]
    rfl

/-- One non-closing step of the brace-matching scan. -/
theorem scanChunks_cons_ne (orig : List Char) (taken : Nat) (d : Int) (c : Char)
    (t : List Char) (h : ¬(c = '}' ∧ d - 1 = 0)) :
    scanChunks orig taken d (c :: t) =
      scanChunks orig (taken + 1)
        (if c = '{' then d + 1 else if c = '}' then d - 1 else d) t := by
  conv_lhs => unfold scanChunks
  rw [if_neg h]

/-- The closing step of the brace-matching scan. -/
theorem scanChunks_cons_close (orig : List Char) (taken : Nat) (d : Int)
    (t : List Char) (h : d - 1 = 0) :
    scanChunks orig taken d ('}' :: t) =
      (match jsonLoadsL (orig.take (taken + 1)) with
       | some obj =>
         if isFnObj obj then some obj else scanChunks orig (taken + 1) (d - 1) t
       | none => none) := by
  conv_lhs => unfold scanChunks
  rw [if_pos ⟨rfl, h⟩]

/-- The scan walks over a brace-free segment unchanged. -/
theorem scanChunks_skip (orig : List Char) (seg : List Char)
    (hseg : seg.all notBraceTick = true) :
    ∀ (taken : Nat) (d : Int) (l : List Char),
      scanChunks orig taken d (seg ++ l) =
        scanChunks orig (taken + seg.length) d l := by
  induction seg with
  | nil => intro taken d l; simp
  | cons c seg' ih =>
    intro taken d l
    simp only [List.all_cons, Bool.and_eq_true] at hseg
    have hc : c ≠ '{' ∧ c ≠ '}' ∧ c ≠ '`' := by
      have := hseg.1
      simpa [notBraceTick] using this
    rw [List.cons_append,
      scanChunks_cons_ne orig taken d c (seg' ++ l) (by simp [hc.2.1]),
      if_neg hc.1, if_neg hc.2.1, ih hseg.2 (taken + 1) d l]
    have : taken + 1 + seg'.length = taken + (c :: seg').length := by
      simp only [List.length_cons]
      omega
    rw [this]

/-- The brace-matching scan started at a canonical serialization closes
exactly at its final brace and parses it. -/
theorem scanChunks_ser (name : String) (args : List (String × String))
    (hname : strAll xplainChar name = true) (hargs : argsAll xplainChar args = true)
    (p2 : List Char) :
    scanChunks (serCallList name args ++ p2) 0 0 (serCallList name args ++ p2) =
      some (callJson name args) := by
  have hB1 := serHead_nbt name hname
  have hB2 := serMembers_nbt args hargs
  have hshape : serCallList name args ++ p2 =
      '{' :: (serHead name ++ ('{' :: (serMembers args ++ ('}' :: ('}' :: p2))))) := by
    simp [serCallList]
  conv_lhs => rw [hshape]
  rw [scanChunks_cons_ne _ _ _ _ _ (by simp)]
  rw [if_pos rfl]
  rw [scanChunks_skip _ _ hB1]
  rw [scanChunks_cons_ne _ _ _ _ _ (by simp)]
  rw [if_pos rfl]
  rw [scanChunks_skip _ _ hB2]
  rw [scanChunks_cons_ne _ _ _ _ _ (by norm_num)]
  rw [if_neg (by decide), if_pos rfl]
  rw [scanChunks_cons_close _ _ _ _ (by norm_num)]
  have htaken : 0 + 1 + (serHead name).length + 1 + (serMembers args).length + 1 + 1 =
      (serCallList name args).length := by
    simp only [serCallList, List.length_cons, List.length_append, List.length_nil]
    omega
  rw [htaken, ← hshape, List.take_left]
  rw [jsonLoadsL_ser name args (xplain_to_jplain name hname) (xplainArgs_to_jplain args hargs)]
  simp only [isFnObj_callJson, if_true]

/-- A non-object value never qualifies as a function-call object. -/
theorem isFnObj_of_not_obj (v : Json) (h : isObjJ v = false) : isFnObj v = false := by
  cases v <;> first | rfl | simp [isObjJ] at h

/-- A backtick-free input has no fenced blocks (membership form). -/
theorem fenceScan_no_tick (f : Nat) : ∀ l : List Char,
    (∀ c ∈ l, c ≠ '`') → fenceScan f l = [] := by
  induction f with
  | zero => intro l _; rfl
  | succ f ih =>
    intro l hl
    cases l with
    | nil => rfl
    | cons c t =>
      unfold fenceScan
      rw [fenceMatchAt_none c t (hl c (by simp))]
      exact ih t (fun x hx => hl x (by simp [hx]))

/-- The canonical serialization of an xplain payload contains no backtick. -/
theorem serCall_no_tick (name : String) (args : List (String × String))
    (hname : strAll xplainChar name = true) (hargs : argsAll xplainChar args = true) :
    ∀ c ∈ serCallList name args, c ≠ '`' := by
  have hB1 := serHead_nbt name hname
  have hB2 := serMembers_nbt args hargs
  simp only [List.all_eq_true, notBraceTick, decide_eq_true_eq] at hB1 hB2
  intro c hc
  simp only [serCallList, List.mem_cons, List.mem_append] at hc
  rcases hc with ((rfl | h) | rfl | h) | (rfl | rfl | h)
  · decide
  · exact (hB1 c h).2.2
  · decide
  · exact (hB2 c h).2.2
  · decide
  · decide
  · exact absurd h (by simp)

/-- Strategies 2 and 3 recover a payload wrapped in backtick-free prose whose
left part contains no opening brace. -/
theorem extractFallback_wrapped (name : String) (args : List (String × String))
    (hname : strAll xplainChar name = true) (hargs : argsAll xplainChar args = true)
    (dp1 rp2 : List Char)
    (hdp1 : ∀ c ∈ dp1, c ≠ '{' ∧ c ≠ '`') (hrp2 : ∀ c ∈ rp2, c ≠ '`') :
    extractFallback (dp1 ++ (serCallList name args ++ rp2)) =
      some (callJson name args) := by
  have hnt : ∀ c ∈ dp1 ++ (serCallList name args ++ rp2), c ≠ '`' := by
    intro c hc
    rcases List.mem_append.mp hc with h | h
    · exact (hdp1 c h).2
    · rcases List.mem_append.mp h with h2 | h2
      · exact serCall_no_tick name args hname hargs c h2
      · exact hrp2 c h2
  unfold extractFallback
  rw [fenceScan_no_tick _ _ hnt]
  have h0 : tryBlocks ([] : List (List Char)) = none := rfl
  rw [h0]
  show strat3 (dp1 ++ (serCallList name args ++ rp2)) = some (callJson name args)
  unfold strat3 firstIdxOf
  have hpre : fnPat.isPrefixOf (serCallList name args ++ rp2) = true := by
    rw [List.isPrefixOf_iff_prefix]
    conv_rhs => rw [serCall_fnPat name args]
    rw [List.append_assoc]
    exact List.prefix_append _ _
  rw [firstIdxOfAux_skip fnPat ⟨_, rfl⟩ dp1 (fun c hc => (hdp1 c hc).1) 0 _,
    firstIdxOfAux_here fnPat _ hpre _]
  show scanChunks ((dp1 ++ (serCallList name args ++ rp2)).drop (0 + dp1.length)) 0 0
      ((dp1 ++ (serCallList name args ++ rp2)).drop (0 + dp1.length)) =
    some (callJson name args)
  rw [Nat.zero_add, List.drop_left]
  exact scanChunks_ser name args hname hargs rp2

/-- `json.loads` rejects a canonical serialization followed by trailing
data (`Extra data`). -/
theorem jsonLoadsL_ser_extra (name : String) (args : List (String × String))
    (hname : strAll jplainChar name = true) (hargs : argsAll jplainChar args = true)
    (rp2 : List Char) (hne : rp2 ≠ [])
    (hlast : ∀ c t, rp2.reverse = c :: t → pyWsChar c = false) :
    jsonLoadsL (serCallList name args ++ rp2) = none := by
  have hlen := serCallList_length name args
  have h1 : pAux (2 * (serCallList name args ++ rp2).length + 4) PM.val
      (serCallList name args ++ rp2) = some (callJson name args, rp2) := by
    apply pAux_val_ser name args _ rp2 hname hargs
    simp only [List.length_append]
    omega
  unfold jsonLoadsL
  rw [h1]
  have h2 : (skipWsL rp2).isEmpty = false := by
    cases hr : rp2.reverse with
    | nil =>
      exact absurd (by simpa using congrArg List.reverse hr) hne
    | cons c t =>
      have hc : pyWsChar c = false := hlast c t hr
      have hcm : c ∈ rp2 := by
        have : c ∈ rp2.reverse := by rw [hr]; simp
        simpa using this
      have : skipWsL rp2 ≠ [] := by
        intro hemp
        have := (List.dropWhile_eq_nil_iff).mp hemp c hcm
        have := jsonWs_le_pyWs c this
        rw [hc] at this
        exact Bool.noConfusion this
      simpa [List.isEmpty_iff] using this
  simp [h2]

/-- The extractor recovers a payload wrapped in prose: no backtick in the
prose, no opening brace before the payload. -/
theorem extract_wrapped (name : String) (args : List (String × String))
    (hname : strAll xplainChar name = true) (hargs : argsAll xplainChar args = true)
    (p1 p2 : List Char)
    (hp1 : ∀ c ∈ p1, c ≠ '{' ∧ c ≠ '`') (hp2 : ∀ c ∈ p2, c ≠ '`') :
    extract_json_call (String.mk (p1 ++ serCallList name args ++ p2)) =
      some (callJson name args) := by
  have hnameJ := xplain_to_jplain name hname
  have hargsJ := xplainArgs_to_jplain args hargs
  have htl : (String.mk (p1 ++ serCallList name args ++ p2)).toList =
      p1 ++ serCallList name args ++ p2 := rfl
  have hdp1 : ∀ c ∈ p1.dropWhile pyWsChar, c ≠ '{' ∧ c ≠ '`' := by
    intro c hc
    exact hp1 c ((p1.dropWhile_sublist pyWsChar).mem hc)
  have hrp2 : ∀ c ∈ rdropWhile pyWsChar p2, c ≠ '`' := by
    intro c hc
    apply hp2
    have : c ∈ (p2.reverse.dropWhile pyWsChar) := by
      simpa [rdropWhile] using hc
    have := (p2.reverse.dropWhile_sublist pyWsChar).mem this
    simpa using this
  have hrlast : ∀ c t, (rdropWhile pyWsChar p2).reverse = c :: t →
      pyWsChar c = false := by
    intro c t hr
    simp only [rdropWhile, List.reverse_reverse] at hr
    exact head_dropWhile_not pyWsChar p2.reverse c t hr
  unfold extract_json_call
  rw [htl, pyStripL_decomp name args p1 p2]
  cases hdp : p1.dropWhile pyWsChar with
  | nil =>
    rw [List.nil_append]
    cases hrp : rdropWhile pyWsChar p2 with
    | nil =>
      rw [List.append_nil, jsonLoadsL_ser name args hnameJ hargsJ]
      simp only [isFnObj_callJson, if_true]
    | cons c t =>
      rw [jsonLoadsL_ser_extra name args hnameJ hargsJ (c :: t) (by simp)
        (by rw [hrp] at hrlast; exact hrlast)]
      exact extractFallback_wrapped name args hname hargs [] (c :: t) (by simp)
        (by rw [hrp] at hrp2; exact hrp2)
  | cons c0 dt =>
    have hc0 : c0 ∈ p1.dropWhile pyWsChar := by rw [hdp]; simp
    have hc0w : pyWsChar c0 = false := head_dropWhile_not pyWsChar p1 c0 dt hdp
    have hc0b : c0 ≠ '{' := (hdp1 c0 hc0).1
    have hfb : extractFallback ((c0 :: dt) ++ serCallList name args ++
        rdropWhile pyWsChar p2) = some (callJson name args) := by
      rw [List.append_assoc]
      apply extractFallback_wrapped name args hname hargs
      · rw [← hdp]; exact hdp1
      · exact hrp2
    have hhd : (skipWsL ((c0 :: dt) ++ serCallList name args ++
        rdropWhile pyWsChar p2)).head? ≠ some '{' := by
      have hw : jsonWsChar c0 = false := by
        cases hj : jsonWsChar c0 with
        | false => rfl
        | true => rw [jsonWs_le_pyWs c0 hj] at hc0w; exact Bool.noConfusion hc0w
      show (List.dropWhile jsonWsChar _).head? ≠ some '{'
      rw [List.cons_append, List.cons_append, List.dropWhile_cons, hw]
      simp only [Bool.false_eq_true, if_false, List.head?_cons]
      intro hcontr
      injection hcontr with hcontr
      exact hc0b hcontr
    cases hJ : jsonLoadsL ((c0 :: dt) ++ serCallList name args ++
        rdropWhile pyWsChar p2) with
    | none => exact hfb
    | some v =>
      have hv : isObjJ v = false := by
        unfold jsonLoadsL at hJ
        cases hp : pAux (2 * ((c0 :: dt) ++ serCallList name args ++
            rdropWhile pyWsChar p2).length + 4) PM.val
            ((c0 :: dt) ++ serCallList name args ++ rdropWhile pyWsChar p2) with
        | none => rw [hp] at hJ; exact Option.noConfusion hJ
        | some pr =>
          obtain ⟨pv, prest⟩ := pr
          rw [hp] at hJ
          have hJ2 : (if (skipWsL prest).isEmpty = true then some pv else none) =
              some v := hJ
          split at hJ2
          · injection hJ2 with hJ3
            subst hJ3
            exact pAux_val_not_obj _ _ _ _ hp hhd
          · exact Option.noConfusion hJ2
      show (if isFnObj v = true then some v
        else extractFallback (c0 :: dt ++ serCallList name args ++
          rdropWhile pyWsChar p2)) = some (callJson name args)
      rw [isFnObj_of_not_obj v hv]
      simp only [Bool.false_eq_true, if_false]
      exact hfb

/-- No JSON value starts at a backtick. -/
theorem pAux_val_tick (f : Nat) (t : List Char) :
    pAux f PM.val ('`' :: t) = none := by
  cases f with
  | zero => rfl
  | succ f =>
    unfold pAux
    rw [show skipWsL ('`' :: t) = '`' :: t from by
      rw [skipWsL, List.dropWhile_cons, if_neg (by decide)]]
    simp

/-- `json.loads` rejects an input starting at a backtick. -/
theorem jsonLoadsL_tick (t : List Char) : jsonLoadsL ('`' :: t) = none := by
  unfold jsonLoadsL
  rw [pAux_val_tick]

/-- The fence scan of an empty input is empty at every fuel. -/
theorem fenceScan_nil (f : Nat) : fenceScan f [] = [] := by
  cases f <;> rfl

/-- The lazy-close search skips a brace-free segment. -/
theorem findLazyClose_skip (seg : List Char) (hseg : ∀ c ∈ seg, c ≠ '}') :
    ∀ l : List Char, findLazyClose (seg ++ l) =
      (findLazyClose l).map (fun p => (seg ++ p.1, p.2)) := by
  induction seg with
  | nil =>
    intro l
    cases h : findLazyClose l with
    | none => simp [h]
    | some p => simp [h]
  | cons c seg' ih =>
    intro l
    rw [List.cons_append]
    conv_lhs => unfold findLazyClose
    rw [if_neg (by
      intro hcontr
      exact hseg c (by simp) hcontr.1)]
    rw [ih (fun x hx => hseg x (by simp [hx])) l]
    cases h : findLazyClose l with
    | none => simp
    | some p => simp

/-- The second strategy accepts a canonical serialization as the single
fenced block. -/
theorem tryBlocks_ser (name : String) (args : List (String × String))
    (hname : strAll jplainChar name = true) (hargs : argsAll jplainChar args = true) :
    tryBlocks [serCallList name args] = some (callJson name args) := by
  unfold tryBlocks
  rw [pyStripL_serCall, jsonLoadsL_ser name args hname hargs]
  simp only [isFnObj_callJson, if_true]

/-- One non-closing step of the lazy-close search. -/
theorem findLazyClose_cons_ne (c : Char) (t : List Char)
    (h : ¬(c = '}' ∧ fenceCloseAfter t = true)) :
    findLazyClose (c :: t) = (findLazyClose t).map (fun p => (c :: p.1, p.2)) := by
  conv_lhs => unfold findLazyClose
  rw [if_neg h]

/-- The fence regex matches a canonically serialized payload inside a
```` ```json ```` block and captures exactly the serialization. -/
theorem fenceMatchAt_ser (name : String) (args : List (String × String))
    (hname : strAll xplainChar name = true) (hargs : argsAll xplainChar args = true) :
    fenceMatchAt (("```json\n").toList ++ serCallList name args ++ ("\n```").toList) =
      some (serCallList name args, []) := by
  have hB1 := serHead_nbt name hname
  have hB2 := serMembers_nbt args hargs
  simp only [List.all_eq_true, notBraceTick, decide_eq_true_eq] at hB1 hB2
  have h1 : fenceMatchAt (("```json\n").toList ++ serCallList name args ++ ("\n```").toList) =
      (findLazyClose (((serHead name ++ ('{' :: serMembers args)) ++ ['}', '}']) ++
          ('\n' :: '`' :: '`' :: '`' :: []))).map
        (fun p => ('{' :: p.1 ++ ['}'], p.2)) := rfl
  rw [h1]
  have h2 : ((serHead name ++ ('{' :: serMembers args)) ++ ['}', '}']) ++
      ('\n' :: '`' :: '`' :: '`' :: []) =
      serHead name ++ ('{' :: (serMembers args ++
        ('}' :: '}' :: '\n' :: '`' :: '`' :: '`' :: []))) := by
    simp
  rw [h2, findLazyClose_skip (serHead name) (fun c hc => (hB1 c hc).2.1)]
  rw [findLazyClose_cons_ne '{' _ (fun hc => absurd hc.1 (by decide))]
  rw [findLazyClose_skip (serMembers args) (fun c hc => (hB2 c hc).2.1)]
  rw [show findLazyClose ('}' :: '}' :: '\n' :: '`' :: '`' :: '`' :: []) =
      some (['}'], []) from rfl]
  simp [serCallList]

/-- One successful step of the fence scan. -/
theorem fenceScan_cons_match (f : Nat) (c : Char) (t g rest : List Char)
    (h : fenceMatchAt (c :: t) = some (g, rest)) :
    fenceScan (f + 1) (c :: t) = g :: fenceScan f rest := by
  conv_lhs => unfold fenceScan
  rw [h]

/-- The extractor recovers a payload presented inside a ```` ```json ````
fenced code block (strategy 2). -/
theorem extract_fenced (name : String) (args : List (String × String))
    (hname : strAll xplainChar name = true) (hargs : argsAll xplainChar args = true) :
    extract_json_call (String.mk
      (("```json\n").toList ++ serCallList name args ++ ("\n```").toList)) =
      some (callJson name args) := by
  have hnameJ := xplain_to_jplain name hname
  have hargsJ := xplainArgs_to_jplain args hargs
  have hL : ("```json\n").toList ++ serCallList name args ++ ("\n```").toList =
      '`' :: (("``json\n").toList ++ serCallList name args ++ ("\n```").toList) := rfl
  have hd : (("```json\n").toList ++ serCallList name args ++
      ("\n```").toList).dropWhile pyWsChar =
      ("```json\n").toList ++ serCallList name args ++ ("\n```").toList := by
    conv_lhs => rw [hL]
    rw [List.dropWhile_cons, if_neg (by decide), ← hL]
  have hrd : rdropWhile pyWsChar
      (("```json\n").toList ++ serCallList name args ++ ("\n```").toList) =
      ("```json\n").toList ++ serCallList name args ++ ("\n```").toList := by
    apply rdropWhile_eq_self
    intro x hx
    have hh : (("```json\n").toList ++ serCallList name args ++
        ("\n```").toList).reverse.head? = some '`' := by
      rw [List.reverse_append]
      rfl
    rw [hh] at hx
    injection hx with hx
    subst hx
    decide
  have hstrip : pyStripL (("```json\n").toList ++ serCallList name args ++
      ("\n```").toList) =
      ("```json\n").toList ++ serCallList name args ++ ("\n```").toList := by
    unfold pyStripL
    rw [hd, hrd]
  have hJ : jsonLoadsL (("```json\n").toList ++ serCallList name args ++
      ("\n```").toList) = none := by
    rw [hL]
    exact jsonLoadsL_tick _
  have hm := fenceMatchAt_ser name args hname hargs
  rw [hL] at hm
  have hscan : fenceScan ((("```json\n").toList ++ serCallList name args ++
      ("\n```").toList).length + 1)
      (("```json\n").toList ++ serCallList name args ++ ("\n```").toList) =
      [serCallList name args] := by
    rw [hL, fenceScan_cons_match _ _ _ _ _ hm, fenceScan_nil]
  unfold extract_json_call
  have htl : (String.mk (("```json\n").toList ++ serCallList name args ++
      ("\n```").toList)).toList =
      ("```json\n").toList ++ serCallList name args ++ ("\n```").toList := rfl
  rw [htl, hstrip, hJ]
  show extractFallback (("```json\n").toList ++ serCallList name args ++
    ("\n```").toList) = some (callJson name args)
  unfold extractFallback
  rw [hscan, tryBlocks_ser name args hnameJ hargsJ]

/-- Claim C3 (counterexample): the original claim quantifies over every
well-formed payload with string-keyed string arguments wrapped in prose,
but a payload whose argument value contains a closing brace defeats the
brace-matching scan: on the prose-wrapped well-formed payload
`x {"function":"f","arguments":{"e":"}"}}` the extractor returns no call
at all.  Strategy 1 fails on the prose, there is no fenced block, and
strategy 3's depth counter reaches zero at the brace inside the string
value `"}"`; the truncated chunk fails to parse and the loop breaks. -/
theorem c3_brace_in_value_counterexample : extract_json_call
    ("x \x7b\"function\":\"f\",\"arguments\":\x7b\"e\":\"\x7d\"\x7d\x7d") = none := rfl

/-- Claim C3 (amended): for every payload `{"function":NAME,"arguments":AR}`
over JSON-plain strings (no quote, backslash or control character), the
extractor returns exactly the decoded payload when the payload is the whole
input; when the payload is additionally brace- and backtick-free in its
strings, the same holds with the payload wrapped in prose (no backtick
anywhere, no opening brace before the payload) and with the payload inside
a ```` ```json ```` fenced block; in particular the input
`Here's the call: {"function":"calculate","arguments":{"expression":"2+2"}} thanks`
yields exactly the embedded object. -/
theorem c3_extractor_recovers_payload :
    (∀ (name : String) (args : List (String × String)),
      strAll jplainChar name = true → argsAll jplainChar args = true →
      extract_json_call (serializeCall name args) = some (callJson name args)) ∧
    (∀ (name : String) (args : List (String × String)) (p1 p2 : List Char),
      strAll xplainChar name = true → argsAll xplainChar args = true →
      (∀ c ∈ p1, c ≠ '{' ∧ c ≠ '`') → (∀ c ∈ p2, c ≠ '`') →
      extract_json_call (String.mk (p1 ++ serCallList name args ++ p2)) =
        some (callJson name args)) ∧
    (∀ (name : String) (args : List (String × String)),
      strAll xplainChar name = true → argsAll xplainChar args = true →
      extract_json_call (String.mk (("```json\n").toList ++ serCallList name args ++
        ("\n```").toList)) = some (callJson name args)) ∧
    extract_json_call
      ("Here's the call: \x7b\"function\":\"calculate\",\"arguments\":\x7b\"expression\":\"2+2\"\x7d\x7d thanks") =
      some (callJson ("calculate") [(("expression"), ("2+2"))]) := by
  refine ⟨?_, ?_, ?_, rfl⟩
  · intro name args hname hargs
    exact extract_ser name args hname hargs
  · intro name args p1 p2 hname hargs hp1 hp2
    exact extract_wrapped name args hname hargs p1 p2 hp1 hp2
  · intro name args hname hargs
    exact extract_fenced name args hname hargs

/-- Witness for C3: the amended theorem applied to the payload
`{"function":"calculate","arguments":{"expression":"2+2"}}` wrapped in the
prose `see: … ok`. -/
theorem c3_extractor_recovers_payload_witness :
    extract_json_call (String.mk ((" see: ").toList ++
      serCallList ("calculate") [(("expression"), ("2+2"))] ++ (" ok").toList)) =
      some (callJson ("calculate") [(("expression"), ("2+2"))]) :=
  c3_extractor_recovers_payload.2.1 ("calculate") [(("expression"), ("2+2"))]
    ((" see: ").toList) ((" ok").toList) (by decide) (by decide) (by decide) (by decide)
